import Mathlib

/-!
Verification of the tag/slug workflow and read paths of a small news-publishing
site.  The definitions below are a shallow embedding of the TypeScript source:

* `generateSlug` embeds the slug generator of `src/pages/CreatePost.tsx`
  (lines 36-43): `text.toLowerCase().trim().replace(/[^\w\s-]/g, '')
  .replace(/[\s_-]+/g, '-').replace(/^-+|-+$/g, '')`.
  Strings are modelled as lists of characters (code points); the character
  classes `\w` and `\s` of JavaScript regular expressions are modelled by
  explicit code-point predicates.
* the post-creation orchestration (`handleSubmit`) and the public read paths
  are embedded further below as explicit state-passing functions over a
  relational database state.
-/

namespace DailyBelfastNews

/-- The JavaScript `\s` character class (also the set removed by
`String.prototype.trim`): tab, line feed, vertical tab, form feed, carriage
return, space, and the Unicode space separators. -/
def isJsSpace (c : Char) : Bool :=
  c.toNat == 0x09 || c.toNat == 0x0a || c.toNat == 0x0b || c.toNat == 0x0c ||
  c.toNat == 0x0d || c.toNat == 0x20 || c.toNat == 0xa0 || c.toNat == 0x1680 ||
  (0x2000 ≤ c.toNat && c.toNat ≤ 0x200a) || c.toNat == 0x2028 ||
  c.toNat == 0x2029 || c.toNat == 0x202f || c.toNat == 0x205f ||
  c.toNat == 0x3000 || c.toNat == 0xfeff

/-- The JavaScript `\w` character class: ASCII letters, digits and underscore. -/
def isWordChar (c : Char) : Bool :=
  (97 ≤ c.toNat && c.toNat ≤ 122) || (65 ≤ c.toNat && c.toNat ≤ 90) ||
  (48 ≤ c.toNat && c.toNat ≤ 57) || c.toNat == 95

/-- ASCII lower-casing of one character, the effect of
`String.prototype.toLowerCase` on the characters relevant here. -/
def lowerChar (c : Char) : Char :=
  if 65 ≤ c.toNat ∧ c.toNat ≤ 90 then Char.ofNat (c.toNat + 32) else c

/-- The `[\s_-]` class of the second `replace` in `generateSlug`. -/
def isSep (c : Char) : Bool := isJsSpace c || c.toNat == 95 || c.toNat == 45

/-- The complement of `[^\w\s-]`: characters kept by the first `replace`. -/
def keepChar (c : Char) : Bool := isWordChar c || isJsSpace c || c.toNat == 45

/-- The hyphen character, target of the final `replace(/^-+|-+$/g, '')`. -/
def isHyphen (c : Char) : Bool := c.toNat == 45

/-- `String.prototype.trim`: remove leading and trailing whitespace. -/
def trimChars (l : List Char) : List Char :=
  ((l.dropWhile isJsSpace).reverse.dropWhile isJsSpace).reverse

/-- Worker for `squashSeps`; the flag records whether the previous character
belonged to a separator run (whose hyphen has already been emitted). -/
def squashSepsAux : Bool → List Char → List Char
  | _, [] => []
  | true, c :: cs =>
    if isSep c then squashSepsAux true cs else c :: squashSepsAux false cs
  | false, c :: cs =>
    if isSep c then '-' :: squashSepsAux true cs else c :: squashSepsAux false cs

/-- `replace(/[\s_-]+/g, '-')`: every maximal run of whitespace, underscores
and hyphens collapses to a single hyphen. -/
def squashSeps (l : List Char) : List Char := squashSepsAux false l

/-- `replace(/^-+|-+$/g, '')`: strip leading and trailing hyphen runs. -/
def stripHyphens (l : List Char) : List Char :=
  ((l.dropWhile isHyphen).reverse.dropWhile isHyphen).reverse

/-- The slug generator of `CreatePost.tsx` (lines 36-43), stage for stage. -/
def generateSlug (text : String) : String :=
  String.mk (stripHyphens (squashSeps
    (List.filter keepChar (trimChars (text.data.map lowerChar)))))

/-- A character allowed in a finished slug: a lowercase ASCII letter, a digit,
or a hyphen. -/
def isSlugChar (c : Char) : Bool :=
  (97 ≤ c.toNat && c.toNat ≤ 122) || (48 ≤ c.toNat && c.toNat ≤ 57) ||
  c.toNat == 45

/-- Adjacent characters of a slug never form two consecutive separator
characters (each separator run was collapsed to one hyphen). -/
def SepSpaced (l : List Char) : Prop :=
  l.Chain' fun a d => ¬(isSep a = true ∧ isSep d = true)

theorem toNat_ofNat_of_valid {n : Nat} (h : n.isValidChar) :
    (Char.ofNat n).toNat = n := by
  unfold Char.ofNat
  rw [dif_pos h]
  rfl

theorem lowerChar_not_upper (c : Char) :
    ¬(65 ≤ (lowerChar c).toNat ∧ (lowerChar c).toNat ≤ 90) := by
  unfold lowerChar
  by_cases h : 65 ≤ c.toNat ∧ c.toNat ≤ 90
  · rw [if_pos h, toNat_ofNat_of_valid (Or.inl (by omega))]
    omega
  · rw [if_neg h]
    exact h

theorem mem_dropWhile {α : Type} {p : α → Bool} {l : List α} {c : α}
    (h : c ∈ l.dropWhile p) : c ∈ l :=
  (List.dropWhile_suffix p).sublist.mem h

theorem mem_trimChars {l : List Char} {c : Char} (h : c ∈ trimChars l) :
    c ∈ l := by
  unfold trimChars at h
  rw [List.mem_reverse] at h
  exact mem_dropWhile ((List.mem_reverse).mp (mem_dropWhile h))

theorem mem_stripHyphens {l : List Char} {c : Char} (h : c ∈ stripHyphens l) :
    c ∈ l := by
  unfold stripHyphens at h
  rw [List.mem_reverse] at h
  exact mem_dropWhile ((List.mem_reverse).mp (mem_dropWhile h))

theorem mem_squashSepsAux {b : Bool} {l : List Char} {c : Char}
    (h : c ∈ squashSepsAux b l) : c.toNat = 45 ∨ (c ∈ l ∧ isSep c = false) := by
  induction l generalizing b with
  | nil => cases b <;> simp [squashSepsAux] at h
  | cons d t ih =>
    have lift : c.toNat = 45 ∨ (c ∈ t ∧ isSep c = false) →
        c.toNat = 45 ∨ (c ∈ d :: t ∧ isSep c = false) := by
      rintro (h1 | ⟨h2, h3⟩)
      · exact Or.inl h1
      · exact Or.inr ⟨List.mem_cons_of_mem _ h2, h3⟩
    cases b with
    | true =>
      by_cases hd : isSep d
      · simp only [squashSepsAux] at h
        rw [if_pos hd] at h
        exact lift (ih h)
      · simp only [squashSepsAux] at h
        rw [if_neg hd] at h
        rcases List.mem_cons.mp h with h1 | h1
        · subst h1
          exact Or.inr ⟨List.mem_cons_self _ _, by simpa using hd⟩
        · exact lift (ih h1)
    | false =>
      by_cases hd : isSep d
      · simp only [squashSepsAux] at h
        rw [if_pos hd] at h
        rcases List.mem_cons.mp h with h1 | h1
        · subst h1
          exact Or.inl rfl
        · exact lift (ih h1)
      · simp only [squashSepsAux] at h
        rw [if_neg hd] at h
        rcases List.mem_cons.mp h with h1 | h1
        · subst h1
          exact Or.inr ⟨List.mem_cons_self _ _, by simpa using hd⟩
        · exact lift (ih h1)

theorem head_dropWhile_not {α : Type} {p : α → Bool} {l : List α} {c : α}
    (h : (l.dropWhile p).head? = some c) : p c = false := by
  induction l with
  | nil => simp [List.dropWhile] at h
  | cons a t ih =>
    by_cases ha : p a
    · rw [List.dropWhile_cons_of_pos ha] at h
      exact ih h
    · rw [List.dropWhile_cons_of_neg ha, List.head?_cons] at h
      cases h
      simpa using ha

theorem getLast?_dropWhile {α : Type} (p : α → Bool) (l : List α)
    (h : l.dropWhile p ≠ []) : (l.dropWhile p).getLast? = l.getLast? := by
  induction l with
  | nil => simp [List.dropWhile] at h
  | cons a t ih =>
    by_cases ha : p a
    · rw [List.dropWhile_cons_of_pos ha] at h ⊢
      rw [ih h]
      cases t with
      | nil => simp [List.dropWhile] at h
      | cons b u => rw [List.getLast?_cons_cons]
    · rw [List.dropWhile_cons_of_neg ha]

theorem stripHyphens_head {l : List Char} {c : Char}
    (h : (stripHyphens l).head? = some c) : isHyphen c = false := by
  unfold stripHyphens at h
  rw [List.head?_reverse] at h
  by_cases hn : ((l.dropWhile isHyphen).reverse).dropWhile isHyphen = []
  · rw [hn] at h
    simp at h
  · rw [getLast?_dropWhile _ _ hn, List.getLast?_reverse] at h
    exact head_dropWhile_not h

theorem stripHyphens_getLast {l : List Char} {c : Char}
    (h : (stripHyphens l).getLast? = some c) : isHyphen c = false := by
  unfold stripHyphens at h
  rw [List.getLast?_reverse] at h
  exact head_dropWhile_not h

theorem slugChar_of_generateSlug {s : String} {c : Char}
    (h : c ∈ (generateSlug s).data) : isSlugChar c = true := by
  have h1 : c ∈ squashSeps (List.filter keepChar
      (trimChars (s.data.map lowerChar))) := mem_stripHyphens h
  rcases mem_squashSepsAux h1 with h2 | ⟨h2, h3⟩
  · simp only [isSlugChar, Bool.or_eq_true, Bool.and_eq_true, beq_iff_eq,
      decide_eq_true_eq]
    omega
  · rw [List.mem_filter] at h2
    obtain ⟨h4, h5⟩ := h2
    obtain ⟨c0, _, hc0⟩ := List.mem_map.mp (mem_trimChars h4)
    have h6 := lowerChar_not_upper c0
    rw [hc0] at h6
    have h7 : ¬(isSep c = true) := by simp [h3]
    simp only [keepChar, isWordChar, isJsSpace, isSep, Bool.or_eq_true,
      Bool.and_eq_true, beq_iff_eq, decide_eq_true_eq] at h5 h7
    simp only [isSlugChar, Bool.or_eq_true, Bool.and_eq_true, beq_iff_eq,
      decide_eq_true_eq]
    omega

theorem slugChar_lowerChar_fix {c : Char} (h : isSlugChar c = true) :
    lowerChar c = c := by
  unfold lowerChar
  rw [if_neg]
  simp only [isSlugChar, Bool.or_eq_true, Bool.and_eq_true, beq_iff_eq,
    decide_eq_true_eq] at h
  omega

theorem slugChar_not_space {c : Char} (h : isSlugChar c = true) :
    isJsSpace c = false := by
  rw [Bool.eq_false_iff]
  intro hs
  simp only [isSlugChar, isJsSpace, Bool.or_eq_true, Bool.and_eq_true,
    beq_iff_eq, decide_eq_true_eq] at h hs
  omega

theorem slugChar_keep {c : Char} (h : isSlugChar c = true) :
    keepChar c = true := by
  simp only [isSlugChar, keepChar, isWordChar, isJsSpace, Bool.or_eq_true,
    Bool.and_eq_true, beq_iff_eq, decide_eq_true_eq] at h ⊢
  omega

theorem slugChar_sep_hyphen {c : Char} (h1 : isSlugChar c = true)
    (h2 : isSep c = true) : c = '-' := by
  have h3 : c.toNat = 45 := by
    simp only [isSlugChar, isSep, isJsSpace, Bool.or_eq_true, Bool.and_eq_true,
      beq_iff_eq, decide_eq_true_eq] at h1 h2
    omega
  rw [← Char.ofNat_toNat c, h3]

theorem dropWhile_eq_self_of_all {α : Type} {p : α → Bool} {l : List α}
    (h : ∀ c ∈ l, p c = false) : l.dropWhile p = l := by
  cases l with
  | nil => rfl
  | cons a t =>
    rw [List.dropWhile_cons_of_neg]
    simp [h a (List.mem_cons_self a t)]

theorem dropWhile_eq_self_of_head {α : Type} {p : α → Bool} {l : List α}
    (h : ∀ c, l.head? = some c → p c = false) : l.dropWhile p = l := by
  cases l with
  | nil => rfl
  | cons a t =>
    rw [List.dropWhile_cons_of_neg]
    simp [h a rfl]

theorem trimChars_eq_self {l : List Char} (h : ∀ c ∈ l, isJsSpace c = false) :
    trimChars l = l := by
  unfold trimChars
  rw [dropWhile_eq_self_of_all h,
    dropWhile_eq_self_of_all (fun c hc => h c (List.mem_reverse.mp hc)),
    List.reverse_reverse]

theorem stripHyphens_eq_self {l : List Char}
    (h1 : ∀ c, l.head? = some c → isHyphen c = false)
    (h2 : ∀ c, l.getLast? = some c → isHyphen c = false) :
    stripHyphens l = l := by
  unfold stripHyphens
  rw [dropWhile_eq_self_of_head h1,
    dropWhile_eq_self_of_head (fun c hc =>
      h2 c (by rwa [List.head?_reverse] at hc)),
    List.reverse_reverse]

theorem map_lowerChar_eq_self {l : List Char}
    (h : ∀ c ∈ l, isSlugChar c = true) : l.map lowerChar = l := by
  induction l with
  | nil => rfl
  | cons a t ih =>
    rw [List.map_cons, slugChar_lowerChar_fix (h a (List.mem_cons_self a t)),
      ih (fun c hc => h c (List.mem_cons_of_mem _ hc))]

theorem head_squashSepsAux_true {l : List Char} {c : Char}
    (h : (squashSepsAux true l).head? = some c) : isSep c = false := by
  induction l with
  | nil => simp [squashSepsAux] at h
  | cons d t ih =>
    by_cases hd : isSep d
    · simp only [squashSepsAux] at h
      rw [if_pos hd] at h
      exact ih h
    · simp only [squashSepsAux] at h
      rw [if_neg hd, List.head?_cons] at h
      cases h
      simpa using hd

theorem sepSpaced_squashSepsAux (b : Bool) (l : List Char) :
    SepSpaced (squashSepsAux b l) := by
  induction l generalizing b with
  | nil => cases b <;> exact List.chain'_nil
  | cons d t ih =>
    by_cases hd : isSep d
    · cases b with
      | true =>
        simp only [squashSepsAux]
        rw [if_pos hd]
        exact ih true
      | false =>
        simp only [squashSepsAux]
        rw [if_pos hd]
        rw [SepSpaced, List.chain'_cons']
        refine ⟨?_, ih true⟩
        intro y hy hcon
        have hns := head_squashSepsAux_true (Option.mem_def.mp hy)
        have h2 := hcon.2
        rw [hns] at h2
        exact Bool.false_ne_true h2
    · cases b with
      | true =>
        simp only [squashSepsAux]
        rw [if_neg hd]
        rw [SepSpaced, List.chain'_cons']
        exact ⟨fun y _ hcon => hd hcon.1, ih false⟩
      | false =>
        simp only [squashSepsAux]
        rw [if_neg hd]
        rw [SepSpaced, List.chain'_cons']
        exact ⟨fun y _ hcon => hd hcon.1, ih false⟩
theorem squashSepsAux_eq_self {l : List Char} (b : Bool)
    (hall : ∀ c ∈ l, isSlugChar c = true) (hchain : SepSpaced l)
    (hb : b = true → ∀ c, l.head? = some c → isSep c = false) :
    squashSepsAux b l = l := by
  induction l generalizing b with
  | nil => cases b <;> rfl
  | cons d t ih =>
    rw [SepSpaced, List.chain'_cons'] at hchain
    obtain ⟨hrel, hchain2⟩ := hchain
    have hallt : ∀ c ∈ t, isSlugChar c = true :=
      fun c hc => hall c (List.mem_cons_of_mem _ hc)
    cases b with
    | true =>
      have hd : isSep d = false := hb rfl d rfl
      simp only [squashSepsAux]
      rw [if_neg (by simp [hd])]
      rw [ih false hallt hchain2 (fun hf => nomatch hf)]
    | false =>
      by_cases hd : isSep d
      · have hd45 : d = '-' :=
          slugChar_sep_hyphen (hall d (List.mem_cons_self d t)) hd
        simp only [squashSepsAux]
        rw [if_pos hd, hd45]
        have hheadt : ∀ c, t.head? = some c → isSep c = false := by
          intro c hc
          have hr := hrel c (Option.mem_def.mpr hc)
          cases hsc : isSep c
          · rfl
          · exact absurd ⟨hd, hsc⟩ hr
        rw [ih true hallt hchain2 (fun _ => hheadt)]
      · simp only [squashSepsAux]
        rw [if_neg hd]
        rw [ih false hallt hchain2 (fun hf => nomatch hf)]

theorem stripHyphens_isInfix (l : List Char) : stripHyphens l <:+: l := by
  obtain ⟨s, hs⟩ :=
    List.dropWhile_suffix (l := (l.dropWhile isHyphen).reverse) isHyphen
  have hpre : stripHyphens l <+: l.dropWhile isHyphen := by
    refine ⟨s.reverse, ?_⟩
    show ((l.dropWhile isHyphen).reverse.dropWhile isHyphen).reverse
        ++ s.reverse = l.dropWhile isHyphen
    rw [← List.reverse_append, hs, List.reverse_reverse]
  exact hpre.isInfix.trans (List.dropWhile_suffix isHyphen).isInfix

theorem sepSpaced_generateSlug (s : String) : SepSpaced (generateSlug s).data :=
  List.Chain'.infix
    (sepSpaced_squashSepsAux false
      (List.filter keepChar (trimChars (s.data.map lowerChar))))
    (stripHyphens_isInfix _)

/-- C4: for every input string the slug generator returns (it is total by
construction) a lowercase string containing only word characters and hyphens
(every character is a lowercase ASCII letter, a digit or a hyphen), with no
leading or trailing hyphen, and it returns the empty string for degenerate
input such as pure punctuation (`"!!!"`) or whitespace-only text (`"   "`). -/
theorem C4_slug_shape (s : String) :
    (∀ c ∈ (generateSlug s).data, isSlugChar c = true) ∧
    (generateSlug s).data.head? ≠ some '-' ∧
    (generateSlug s).data.getLast? ≠ some '-' ∧
    generateSlug "!!!" = "" ∧ generateSlug "   " = "" := by
  refine ⟨fun c hc => slugChar_of_generateSlug hc, ?_, ?_, by decide, by decide⟩
  · intro h
    have h2 := stripHyphens_head h
    simp [isHyphen] at h2
  · intro h
    have h2 := stripHyphens_getLast h
    simp [isHyphen] at h2

/-- Witness for C4 at the concrete input `"Local News!"`: the character `n`
of the generated slug is a slug character. -/
theorem C4_slug_shape_witness : isSlugChar 'n' = true :=
  (C4_slug_shape "Local News!").1 'n' (by decide)

/-- C5: slug generation is deterministic (it is a pure function of its input)
and idempotent — applying `generateSlug` to its own output returns the output
unchanged — and on the spec's concrete examples `"Local News!" ↦ "local-news"`,
`"  " ↦ ""`, and `"Belfast Storm Warning" ↦ "belfast-storm-warning"`. -/
theorem C5_slug_idempotent (s : String) :
    generateSlug (generateSlug s) = generateSlug s ∧
    generateSlug "Local News!" = "local-news" ∧
    generateSlug "  " = "" ∧
    generateSlug "Belfast Storm Warning" = "belfast-storm-warning" := by
  refine ⟨?_, by decide, by decide, by decide⟩
  have hall : ∀ c ∈ (generateSlug s).data, isSlugChar c = true :=
    fun c hc => slugChar_of_generateSlug hc
  have hspace : ∀ c ∈ (generateSlug s).data, isJsSpace c = false :=
    fun c hc => slugChar_not_space (hall c hc)
  show String.mk (stripHyphens (squashSeps (List.filter keepChar
      (trimChars ((generateSlug s).data.map lowerChar))))) = generateSlug s
  rw [map_lowerChar_eq_self hall, trimChars_eq_self hspace,
    List.filter_eq_self.mpr (fun c hc => slugChar_keep (hall c hc))]
  rw [show squashSeps (generateSlug s).data
      = squashSepsAux false (generateSlug s).data from rfl]
  rw [squashSepsAux_eq_self false hall (sepSpaced_generateSlug s)
    (fun hf => nomatch hf)]
  have hhead : ∀ c, (generateSlug s).data.head? = some c → isHyphen c = false :=
    fun c hc => stripHyphens_head hc
  have hlast : ∀ c, (generateSlug s).data.getLast? = some c → isHyphen c = false :=
    fun c hc => stripHyphens_getLast hc
  rw [stripHyphens_eq_self hhead hlast]

/-! ## Data model and backend state

The relational tables live behind a managed backend whose schema is not part
of the source tree; the table shapes and their uniqueness constraints are
modelled from §3 of the spec.  Identifiers are allocated from a single
`nextId` counter.  Strings stand for both text columns and identity
references. -/

/-- A row of the `tags` table. -/
structure Tag where
  id : Nat
  name : String
  slug : String
deriving DecidableEq

/-- A row of the `posts` table.  The `published` flag and `created_at` are
backend-populated columns. -/
structure Post where
  id : Nat
  title : String
  slug : String
  content : String
  excerpt : String
  featured_image : Option String
  author_id : String
  published : Bool
  created_at : Nat
deriving DecidableEq

/-- The backend state: the object-storage bucket and the three relational
tables used by the workflow, plus the identifier counter. -/
structure DB where
  storageObjects : List String
  posts : List Post
  tags : List Tag
  post_tags : List (Nat × Nat)
  nextId : Nat
deriving DecidableEq

/-- One network call issued during post creation, in issue order. -/
inductive Call where
  | storageUpload (path : String)
  | postsInsert (slug : String)
  | tagsSelect (slug : String)
  | tagsInsert (name slug : String)
  | postTagsInsert (postId tagId : Nat)
deriving DecidableEq

/-- The error that terminates `handleSubmit`: a validation issue message, or
the failing backend step. -/
inductive SubmitError where
  | validation (msg : String)
  | upload
  | postInsert
  | tagInsert (index : Nat)
deriving DecidableEq

/-- The fields of `postSchema.parse`'s result (all four already trimmed). -/
structure ValidatedPost where
  title : String
  content : String
  excerpt : String
  tags : String
deriving DecidableEq

/-- Which backend requests fail for transport/backend reasons during one
submission; per-tag steps are indexed by loop iteration. -/
structure FailurePlan where
  uploadFails : Bool
  postInsertFails : Bool
  tagSelectFails : Nat → Bool
  tagInsertFails : Nat → Bool
  linkInsertFails : Nat → Bool

/-- `String.prototype.trim` on strings. -/
def trimString (s : String) : String := String.mk (trimChars s.data)

/-- The `postSchema` zod object of `CreatePost.tsx` (lines 13-18): each field
is trimmed, then checked in declaration order; the first failing check's
message is reported (`error.errors[0].message`).  Lengths are counted in
characters. -/
def validatePost (title content excerpt tags : String) :
    Except String ValidatedPost :=
  let t := trimString title
  let c := trimString content
  let e := trimString excerpt
  let g := trimString tags
  if t.data.length < 1 then .error "Title is required"
  else if 200 < t.data.length then
    .error "Title must be less than 200 characters"
  else if c.data.length < 1 then .error "Content is required"
  else if 50000 < c.data.length then .error "Content is too long"
  else if 500 < e.data.length then
    .error "Excerpt must be less than 500 characters"
  else if 200 < g.data.length then
    .error "Tags must be less than 200 characters"
  else .ok ⟨t, c, e, g⟩

/-- `String.prototype.split` with a one-character separator: splitting the
empty string yields `[""]`, and adjacent separators yield empty fields. -/
def splitOnChar (sep : Char) : List Char → List (List Char)
  | [] => [[]]
  | c :: cs =>
    if c = sep then [] :: splitOnChar sep cs
    else
      match splitOnChar sep cs with
      | [] => [[c]]
      | h :: t => (c :: h) :: t

/-- The tag-name list of `handleSubmit` (line 92):
`tags.split(',').map(t => t.trim()).filter(t => t)`. -/
def parseTags (s : String) : List String :=
  ((splitOnChar ',' s.data).map (fun cs => String.mk (trimChars cs))).filter
    (fun t => decide (t ≠ ""))

/-- Modelled from the spec: insert into `posts`.  The database schema is not
part of the source tree; §3 requires the post slug to be globally unique, so
an insert with a duplicate slug is rejected by the backend. -/
def insertPost (db : DB) (p : Post) : Except Unit DB :=
  if db.posts.any (fun q => q.slug == p.slug) then .error ()
  else .ok { db with posts := db.posts ++ [p] }

/-- Modelled from the spec: insert into `tags`.  §3 requires tag name and
tag slug to be unique, so a conflicting insert is rejected by the backend. -/
def insertTag (db : DB) (t : Tag) : Except Unit DB :=
  if db.tags.any (fun u => u.slug == t.slug || u.name == t.name) then .error ()
  else .ok { db with tags := db.tags ++ [t] }

/-- Modelled from the spec: insert into `post_tags`.  §3 requires the
(post, tag) pair to be unique; a duplicate insert is rejected and leaves the
table unchanged.  `CreatePost.tsx` (lines 117-119) never reads this insert's
outcome, so only the resulting state matters. -/
def insertLink (db : DB) (postId tagId : Nat) : DB :=
  if db.post_tags.any (fun pr => pr.1 == postId && pr.2 == tagId) then db
  else { db with post_tags := db.post_tags ++ [(postId, tagId)] }

/-- The `tags` select by slug with `maybeSingle` (lines 98-102); its error is
never inspected by the caller, so only the row (if any) is modelled. -/
def findTagBySlug (db : DB) (slug : String) : Option Tag :=
  db.tags.find? (fun t => t.slug == slug)

/-- The per-tag find-or-create-and-link loop of `handleSubmit`
(lines 94-120), iterating over the parsed tag names with the iteration
index threaded for the failure plan.  A failing `tags` select is ignored
(only `data` is read, line 98) and treated as "not found"; a failing `tags`
insert is thrown (line 113) and aborts; the `post_tags` insert outcome is
ignored (lines 117-119).  Returns the final database, the calls issued, and
the outcome. -/
def processTags (plan : FailurePlan) (postId : Nat) :
    Nat → DB → List String → DB × List Call × Except SubmitError Unit
  | _, db, [] => (db, [], .ok ())
  | i, db, name :: rest =>
    let tagSlug := generateSlug name
    match if plan.tagSelectFails i then none else findTagBySlug db tagSlug with
    | some t =>
      let db1 := if plan.linkInsertFails i then db else insertLink db postId t.id
      let r := processTags plan postId (i + 1) db1 rest
      (r.1, Call.tagsSelect tagSlug :: Call.postTagsInsert postId t.id :: r.2.1,
        r.2.2)
    | none =>
      if plan.tagInsertFails i then
        (db, [Call.tagsSelect tagSlug, Call.tagsInsert name tagSlug],
          .error (.tagInsert i))
      else
        match insertTag db ⟨db.nextId, name, tagSlug⟩ with
        | .error _ =>
          (db, [Call.tagsSelect tagSlug, Call.tagsInsert name tagSlug],
            .error (.tagInsert i))
        | .ok dbIns =>
          let tagId := db.nextId
          let db2 := { dbIns with nextId := dbIns.nextId + 1 }
          let db3 := if plan.linkInsertFails i then db2
            else insertLink db2 postId tagId
          let r := processTags plan postId (i + 1) db3 rest
          (r.1, Call.tagsSelect tagSlug :: Call.tagsInsert name tagSlug ::
            Call.postTagsInsert postId tagId :: r.2.1, r.2.2)

/-- The submitted form: the four text fields, the optional image file name,
the authenticated user's identifier and the current time (`Date.now()`). -/
structure SubmitInput where
  title : String
  content : String
  excerpt : String
  tags : String
  image : Option String
  userId : String
  now : Nat
deriving DecidableEq

/-- `image.name.split('.').pop()` (line 57). -/
def fileExtOf (name : String) : String :=
  String.mk ((splitOnChar '.' name.data).getLastD [])

/-- The storage path `${user.id}/${Date.now()}.${fileExt}` (line 58). -/
def uploadPathFor (inp : SubmitInput) (img : String) : String :=
  inp.userId ++ "/" ++ toString inp.now ++ "." ++ fileExtOf img

/-- `getPublicUrl` (lines 66-68): a deterministic URL for a stored path. -/
def publicUrlFor (path : String) : String := "/storage/post-images/" ++ path

/-- The row assembled by the `posts` insert (lines 76-87).  The insert does
not set `published`; the backend default (not in the source tree) is modelled
as `false`, and `created_at` is backend-populated from the current time. -/
def mkNewPost (db : DB) (inp : SubmitInput) (v : ValidatedPost)
    (imageUrl : Option String) : Post :=
  { id := db.nextId
    title := v.title
    slug := generateSlug v.title
    content := v.content
    excerpt := if v.excerpt == "" then String.mk (v.content.data.take 200)
      else v.excerpt
    featured_image := imageUrl
    author_id := inp.userId
    published := false
    created_at := inp.now }

/-- The stages of `handleSubmit` after a successful image stage: post insert
(lines 76-89), then the tag loop (lines 91-121). -/
def submitAfterUpload (db : DB) (inp : SubmitInput) (plan : FailurePlan)
    (v : ValidatedPost) (calls0 : List Call) (imageUrl : Option String) :
    DB × List Call × Except SubmitError Unit :=
  let slug := generateSlug v.title
  if plan.postInsertFails then
    (db, calls0 ++ [Call.postsInsert slug], .error .postInsert)
  else
    match insertPost db (mkNewPost db inp v imageUrl) with
    | .error _ => (db, calls0 ++ [Call.postsInsert slug], .error .postInsert)
    | .ok db1 =>
      let db2 := { db1 with nextId := db1.nextId + 1 }
      if v.tags == "" then (db2, calls0 ++ [Call.postsInsert slug], .ok ())
      else
        let r := processTags plan db.nextId 0 db2 (parseTags v.tags)
        (r.1, calls0 ++ Call.postsInsert slug :: r.2.1, r.2.2)

/-- `handleSubmit` of `CreatePost.tsx` (lines 45-135): validate, optionally
upload the image, insert the post, then resolve and link each tag.  Returns
the final backend state, the network calls issued in order, and the outcome
(the first error thrown, as caught by the surrounding `catch`). -/
def handleSubmit (db : DB) (inp : SubmitInput) (plan : FailurePlan) :
    DB × List Call × Except SubmitError Unit :=
  match validatePost inp.title inp.content inp.excerpt inp.tags with
  | .error m => (db, [], .error (.validation m))
  | .ok v =>
    match inp.image with
    | none => submitAfterUpload db inp plan v [] none
    | some img =>
      let path := uploadPathFor inp img
      if plan.uploadFails then (db, [Call.storageUpload path], .error .upload)
      else
        submitAfterUpload
          { db with storageObjects := db.storageObjects ++ [path] }
          inp plan v [Call.storageUpload path] (some (publicUrlFor path))

/-! ## Read paths -/

/-- The descending-creation-time comparator of the `order('created_at',
ascending: false)` clause. -/
def byCreatedDesc (a b : Post) : Bool := decide (b.created_at ≤ a.created_at)

/-- `fetchPosts` of `Home.tsx` (lines 36-57): select the published posts
ordered by creation time descending.  A pure query: the state is returned
untouched; `fails` injects a transport/backend failure of the select. -/
def fetchPosts (db : DB) (fails : Bool) : DB × Except Unit (List Post) :=
  (db, if fails then .error ()
    else .ok ((db.posts.filter (fun p => p.published)).mergeSort byCreatedDesc))

/-- `fetchPost` of `PostDetail.tsx` (lines 41-63): one row by slug restricted
to published posts, via `maybeSingle` (which reports an error when more than
one row matches). -/
def fetchPostQuery (db : DB) (slug : String) (fails : Bool) :
    DB × Except Unit (Option Post) :=
  (db, if fails then .error ()
    else
      match db.posts.filter (fun p => p.slug == slug && p.published) with
      | [] => .ok none
      | [p] => .ok (some p)
      | _ => .error ())

/-- The `post` component state once `fetchPost` settles: the `catch` block
(lines 58-60) only logs, so a failure leaves `post` as `null` exactly like a
missing row. -/
def postDetailState (db : DB) (slug : String) (fails : Bool) : Option Post :=
  match (fetchPostQuery db slug fails).2 with
  | .ok p => p
  | .error _ => none

/-- `PostDetail.tsx` line 73: the "Post Not Found" page renders iff the
`post` state is `null`. -/
def postDetailShowsNotFound (db : DB) (slug : String) (fails : Bool) : Bool :=
  (postDetailState db slug fails).isNone

/-- The component state of `TagPosts.tsx`: the resolved tag name (empty when
never set) and the fetched posts. -/
structure TagPostsState where
  tagName : String
  posts : List Post
deriving DecidableEq

/-- `fetchPostsByTag` of `TagPosts.tsx` (lines 35-73) at the query level:
resolve the tag slug via `maybeSingle`, then join `post_tags` rows with their
embedded `posts` (dropping null embeds, lines 63-65).  An absent tag is the
early-return state, not an error. -/
def fetchPostsByTagQuery (db : DB) (tagSlug : String)
    (tagFails linkFails : Bool) : Except Unit TagPostsState :=
  if tagFails then .error ()
  else
    match db.tags.filter (fun t => t.slug == tagSlug) with
    | [] => .ok ⟨"", []⟩
    | [t] =>
      if linkFails then .error ()
      else
        .ok ⟨t.name,
          (db.post_tags.filter (fun pr => pr.2 == t.id)).filterMap
            (fun pr => db.posts.find? (fun p => p.id == pr.1))⟩
    | _ => .error ()

/-- The `TagPosts` component state once `fetchPostsByTag` settles: the
`catch` block (lines 68-69) only logs, so a failing tag select leaves the
initial state, and a failing join leaves the already-set tag name with no
posts. -/
def tagPostsState (db : DB) (tagSlug : String) (tagFails linkFails : Bool) :
    TagPostsState :=
  if tagFails then ⟨"", []⟩
  else
    match db.tags.filter (fun t => t.slug == tagSlug) with
    | [] => ⟨"", []⟩
    | [t] =>
      if linkFails then ⟨t.name, []⟩
      else
        ⟨t.name,
          (db.post_tags.filter (fun pr => pr.2 == t.id)).filterMap
            (fun pr => db.posts.find? (fun p => p.id == pr.1))⟩
    | _ => ⟨"", []⟩

deriving instance DecidableEq for Except

/-! ## Concrete fixtures used by witnesses -/

/-- An empty backend state (identifier counter at 1). -/
def emptyDb : DB := ⟨[], [], [], [], 1⟩

/-- A failure plan under which every request succeeds. -/
def noFailPlan : FailurePlan :=
  ⟨false, false, fun _ => false, fun _ => false, fun _ => false⟩

/-- A failure plan under which exactly the `post_tags` inserts fail. -/
def linkFailPlan : FailurePlan :=
  ⟨false, false, fun _ => false, fun _ => false, fun _ => true⟩

/-- A failure plan under which exactly the `tags` selects fail. -/
def tagSelectFailPlan : FailurePlan :=
  ⟨false, false, fun _ => true, fun _ => false, fun _ => false⟩

/-- A sample submission with two same-slug tag names and no image. -/
def sampleInput : SubmitInput :=
  ⟨"Belfast Storm Warning", "Some content here", "", "politics, Politics",
    none, "author-1", 5⟩

/-- A backend state already holding a `politics` tag. -/
def dbWithPoliticsTag : DB := ⟨[], [], [⟨1, "Politics", "politics"⟩], [], 2⟩

/-- The sample submission with an attached image file. -/
def sampleInputImg : SubmitInput :=
  ⟨"Belfast Storm Warning", "Some content here", "", "politics, Politics",
    some "photo.png", "author-1", 5⟩

/-- A sample submission with a single fresh tag name and no image. -/
def singleTagInput : SubmitInput :=
  ⟨"Belfast Storm Warning", "Some content here", "", "politics",
    none, "author-1", 5⟩

/-- A failure plan under which exactly the post insert fails. -/
def postInsertFailPlan : FailurePlan :=
  ⟨false, true, fun _ => false, fun _ => false, fun _ => false⟩

/-- The validated fields of `sampleInput` (and of `sampleInputImg`). -/
def sampleValidated : ValidatedPost :=
  ⟨"Belfast Storm Warning", "Some content here", "", "politics, Politics"⟩

/-- The backend state after the image stage of `handleSubmit` succeeded:
unchanged without an image, else with the uploaded object stored. -/
def uploadStepDb (db : DB) (inp : SubmitInput) : DB :=
  match inp.image with
  | none => db
  | some img =>
    { db with storageObjects := db.storageObjects ++ [uploadPathFor inp img] }

/-- The calls issued by a successful image stage. -/
def uploadStepCalls (inp : SubmitInput) : List Call :=
  match inp.image with
  | none => []
  | some img => [Call.storageUpload (uploadPathFor inp img)]

/-- The `imageUrl` value after a successful image stage. -/
def uploadStepUrl (inp : SubmitInput) : Option String :=
  match inp.image with
  | none => none
  | some img => some (publicUrlFor (uploadPathFor inp img))

/-! ## Claims about the orchestration -/

/-- C7: a submission whose input violates the validation constraints is
rejected locally: `handleSubmit` reports the validation error before any
network call — no image upload, no post insert, no tag select or insert, no
link insert — and the backend state is untouched. -/
theorem C7_validation_is_local (db : DB) (inp : SubmitInput)
    (plan : FailurePlan) (m : String)
    (hv : validatePost inp.title inp.content inp.excerpt inp.tags = .error m) :
    handleSubmit db inp plan = (db, [], .error (.validation m)) := by
  unfold handleSubmit
  rw [hv]

/-- Witness for C7: the empty title is rejected with `Title is required`,
with an empty call trace and an unchanged backend state. -/
theorem C7_validation_is_local_witness :
    handleSubmit emptyDb ⟨"", "content", "", "", none, "author-1", 5⟩
        noFailPlan
      = (emptyDb, [], .error (.validation "Title is required")) :=
  C7_validation_is_local emptyDb _ noFailPlan _ (by decide)

/-- C1: a failed insert of a new tag row (an injected failure, or a
unique-constraint conflict on the tag slug) aborts the whole tag loop with an
error: the trace ends at that insert — no re-query for the now-existing tag,
no further tag resolved, no link inserted — and the loop terminates in the
failed state with the backend state unchanged from this step on. -/
theorem C1_tag_insert_failure_aborts (plan : FailurePlan) (postId i : Nat)
    (db : DB) (name : String) (rest : List String)
    (hsel : (if plan.tagSelectFails i then none
      else findTagBySlug db (generateSlug name)) = (none : Option Tag))
    (hfail : plan.tagInsertFails i = true ∨
      insertTag db ⟨db.nextId, name, generateSlug name⟩ = .error ()) :
    processTags plan postId i db (name :: rest)
      = (db, [Call.tagsSelect (generateSlug name),
          Call.tagsInsert name (generateSlug name)],
        .error (SubmitError.tagInsert i)) := by
  by_cases hpi : plan.tagInsertFails i
  · simp only [processTags, hsel, hpi, if_true]
  · rcases hfail with hfail | hfail
    · exact absurd hfail hpi
    · simp only [processTags, hsel, hpi, if_false, hfail]
      split <;> rfl

/-- Witness for C1: with a `politics` tag already present but the tag select
failing (the select's error is ignored and read as "not found"), the insert
conflicts on the slug and the whole loop aborts. -/
theorem C1_tag_insert_failure_aborts_witness :
    processTags tagSelectFailPlan 7 0 dbWithPoliticsTag ["Politics"]
      = (dbWithPoliticsTag,
        [Call.tagsSelect "politics", Call.tagsInsert "Politics" "politics"],
        .error (SubmitError.tagInsert 0)) :=
  C1_tag_insert_failure_aborts tagSelectFailPlan 7 0 dbWithPoliticsTag
    "Politics" [] (by decide) (Or.inr (by decide))

theorem insertLink_tags (db : DB) (postId tagId : Nat) :
    (insertLink db postId tagId).tags = db.tags ∧
    (insertLink db postId tagId).nextId = db.nextId ∧
    (insertLink db postId tagId).posts = db.posts := by
  unfold insertLink
  split <;> exact ⟨rfl, rfl, rfl⟩

theorem insertTag_ok {db : DB} {t : Tag}
    (h : (db.tags.any fun u => u.slug == t.slug || u.name == t.name) = false) :
    insertTag db t = .ok { db with tags := db.tags ++ [t] } := by
  simp [insertTag, h]

theorem insertTag_error {db : DB} {t : Tag}
    (h : (db.tags.any fun u => u.slug == t.slug || u.name == t.name) = true) :
    insertTag db t = .error () := by
  simp [insertTag, h]


/-- The backend state after the link-insert attempt of one loop iteration:
unchanged when the request fails in transport, else the (constraint-checked)
insert. -/
def linkStep (b : Bool) (db : DB) (postId tagId : Nat) : DB :=
  if b then db else insertLink db postId tagId

/-- The backend state after a successful insert of a fresh tag row plus the
identifier-counter bump. -/
def tagStepDb (db : DB) (name : String) : DB :=
  { db with
    tags := db.tags ++ [⟨db.nextId, name, generateSlug name⟩]
    nextId := db.nextId + 1 }

theorem linkStep_fields (b : Bool) (db : DB) (postId tagId : Nat) :
    (linkStep b db postId tagId).tags = db.tags ∧
    (linkStep b db postId tagId).nextId = db.nextId ∧
    (linkStep b db postId tagId).posts = db.posts := by
  unfold linkStep
  cases b
  · exact insertLink_tags db postId tagId
  · exact ⟨rfl, rfl, rfl⟩

theorem processTags_cons_found (plan : FailurePlan) (postId i : Nat) (db : DB)
    (name : String) (rest : List String) (t : Tag)
    (hsel : (if plan.tagSelectFails i then none
      else findTagBySlug db (generateSlug name)) = some t) :
    processTags plan postId i db (name :: rest)
      = ((processTags plan postId (i + 1)
            (linkStep (plan.linkInsertFails i) db postId t.id) rest).1,
        Call.tagsSelect (generateSlug name)
          :: Call.postTagsInsert postId t.id
          :: (processTags plan postId (i + 1)
            (linkStep (plan.linkInsertFails i) db postId t.id) rest).2.1,
        (processTags plan postId (i + 1)
            (linkStep (plan.linkInsertFails i) db postId t.id) rest).2.2) := by
  simp only [processTags, hsel, linkStep]

theorem processTags_cons_abort (plan : FailurePlan) (postId i : Nat) (db : DB)
    (name : String) (rest : List String)
    (hsel : (if plan.tagSelectFails i then none
      else findTagBySlug db (generateSlug name)) = (none : Option Tag))
    (hfail : plan.tagInsertFails i = true ∨
      insertTag db ⟨db.nextId, name, generateSlug name⟩ = .error ()) :
    processTags plan postId i db (name :: rest)
      = (db, [Call.tagsSelect (generateSlug name),
          Call.tagsInsert name (generateSlug name)],
        .error (SubmitError.tagInsert i)) := by
  by_cases hpi : plan.tagInsertFails i
  · simp only [processTags, hsel, hpi, if_true]
  · rcases hfail with hfail | hfail
    · exact absurd hfail hpi
    · simp only [processTags, hsel, hpi, if_false, hfail]
      split <;> rfl

theorem processTags_cons_new (plan : FailurePlan) (postId i : Nat) (db : DB)
    (name : String) (rest : List String)
    (hsel : (if plan.tagSelectFails i then none
      else findTagBySlug db (generateSlug name)) = (none : Option Tag))
    (hpi : plan.tagInsertFails i = false)
    (hguard : (db.tags.any fun u =>
      u.slug == generateSlug name || u.name == name) = false) :
    processTags plan postId i db (name :: rest)
      = ((processTags plan postId (i + 1)
            (linkStep (plan.linkInsertFails i) (tagStepDb db name) postId
              db.nextId) rest).1,
        Call.tagsSelect (generateSlug name)
          :: Call.tagsInsert name (generateSlug name)
          :: Call.postTagsInsert postId db.nextId
          :: (processTags plan postId (i + 1)
            (linkStep (plan.linkInsertFails i) (tagStepDb db name) postId
              db.nextId) rest).2.1,
        (processTags plan postId (i + 1)
            (linkStep (plan.linkInsertFails i) (tagStepDb db name) postId
              db.nextId) rest).2.2) := by
  have hins : insertTag db ⟨db.nextId, name, generateSlug name⟩
      = .ok { db with tags := db.tags ++ [⟨db.nextId, name, generateSlug name⟩] } :=
    insertTag_ok hguard
  simp only [processTags, hsel, hpi, if_false, hins, linkStep, tagStepDb]
  rw [if_neg (by simp)]

/-- Injected failures of the `post_tags` inserts change neither the outcome
nor the call trace nor the tag table of the tag loop: the loop never reads
the link insert's result. -/
theorem processTags_link_failures_ignored (plan : FailurePlan)
    (g : Nat → Bool) (postId : Nat) (names : List String) :
    ∀ (i : Nat) (d1 d2 : DB), d1.tags = d2.tags → d1.nextId = d2.nextId →
      ((processTags plan postId i d1 names).2.2
          = (processTags { plan with linkInsertFails := g } postId i d2
            names).2.2)
        ∧ ((processTags plan postId i d1 names).2.1
          = (processTags { plan with linkInsertFails := g } postId i d2
            names).2.1)
        ∧ ((processTags plan postId i d1 names).1.tags
          = (processTags { plan with linkInsertFails := g } postId i d2
            names).1.tags)
        ∧ ((processTags plan postId i d1 names).1.nextId
          = (processTags { plan with linkInsertFails := g } postId i d2
            names).1.nextId) := by
  induction names with
  | nil =>
    intro i d1 d2 ht hn
    exact ⟨rfl, rfl, ht, hn⟩
  | cons name rest ih =>
    intro i d1 d2 ht hn
    have hselEq : (if ({ plan with linkInsertFails := g }
          : FailurePlan).tagSelectFails i then none
        else findTagBySlug d2 (generateSlug name))
        = (if plan.tagSelectFails i then none
          else findTagBySlug d1 (generateSlug name)) := by
      show (if plan.tagSelectFails i then none
          else findTagBySlug d2 (generateSlug name)) = _
      simp only [findTagBySlug, ht]
    cases hs : (if plan.tagSelectFails i = true then (none : Option Tag)
        else findTagBySlug d1 (generateSlug name)) with
    | some t =>
      rw [processTags_cons_found plan postId i d1 name rest t hs,
        processTags_cons_found { plan with linkInsertFails := g } postId i d2
          name rest t (hselEq.trans hs)]
      obtain ⟨ho, hc, htg, hnx⟩ := ih (i + 1)
        (linkStep (plan.linkInsertFails i) d1 postId t.id)
        (linkStep (({ plan with linkInsertFails := g }
          : FailurePlan).linkInsertFails i) d2 postId t.id)
        (by rw [(linkStep_fields _ d1 postId t.id).1,
          (linkStep_fields _ d2 postId t.id).1, ht])
        (by rw [(linkStep_fields _ d1 postId t.id).2.1,
          (linkStep_fields _ d2 postId t.id).2.1, hn])
      exact ⟨ho, by rw [hc], htg, hnx⟩
    | none =>
      by_cases hpi : plan.tagInsertFails i
      · rw [processTags_cons_abort plan postId i d1 name rest hs (Or.inl hpi),
          processTags_cons_abort { plan with linkInsertFails := g } postId i d2
            name rest (hselEq.trans hs) (Or.inl hpi)]
        exact ⟨rfl, rfl, ht, hn⟩
      · by_cases hg2 : (d1.tags.any fun u =>
            u.slug == generateSlug name || u.name == name) = true
        · have hg2b : (d2.tags.any fun u =>
              u.slug == generateSlug name || u.name == name) = true := by
            rw [← ht]
            exact hg2
          rw [processTags_cons_abort plan postId i d1 name rest hs
              (Or.inr (insertTag_error hg2)),
            processTags_cons_abort { plan with linkInsertFails := g } postId i
              d2 name rest (hselEq.trans hs) (Or.inr (insertTag_error hg2b))]
          exact ⟨rfl, rfl, ht, hn⟩
        · have hg2f : (d1.tags.any fun u =>
              u.slug == generateSlug name || u.name == name) = false :=
            Bool.eq_false_iff.mpr hg2
          have hg2g : (d2.tags.any fun u =>
              u.slug == generateSlug name || u.name == name) = false := by
            rw [← ht]
            exact hg2f
          rw [processTags_cons_new plan postId i d1 name rest hs
              (Bool.eq_false_iff.mpr hpi) hg2f,
            processTags_cons_new { plan with linkInsertFails := g } postId i d2
              name rest (hselEq.trans hs) (Bool.eq_false_iff.mpr hpi) hg2g]
          obtain ⟨ho, hc, htg, hnx⟩ := ih (i + 1)
            (linkStep (plan.linkInsertFails i) (tagStepDb d1 name) postId
              d1.nextId)
            (linkStep (({ plan with linkInsertFails := g }
              : FailurePlan).linkInsertFails i) (tagStepDb d2 name) postId
              d2.nextId)
            (by rw [(linkStep_fields _ (tagStepDb d1 name) postId d1.nextId).1,
              (linkStep_fields _ (tagStepDb d2 name) postId d2.nextId).1,
              tagStepDb, tagStepDb, ht, hn])
            (by rw [(linkStep_fields _ (tagStepDb d1 name) postId
                d1.nextId).2.1,
              (linkStep_fields _ (tagStepDb d2 name) postId d2.nextId).2.1,
              tagStepDb, tagStepDb, hn])
          exact ⟨ho, by rw [hc, hn], htg, hnx⟩


theorem insertPost_ok {db : DB} {p : Post}
    (h : (db.posts.any fun q => q.slug == p.slug) = false) :
    insertPost db p = .ok { db with posts := db.posts ++ [p] } := by
  simp [insertPost, h]

/-- Link-insert failures are invisible to the whole submission: same outcome
and same call trace, whatever the link failure pattern. -/
theorem submitAfterUpload_link_failures_ignored (db : DB) (inp : SubmitInput)
    (plan : FailurePlan) (g : Nat → Bool) (v : ValidatedPost)
    (calls0 : List Call) (imageUrl : Option String) :
    ((submitAfterUpload db inp { plan with linkInsertFails := g } v calls0
        imageUrl).2.2
      = (submitAfterUpload db inp plan v calls0 imageUrl).2.2) ∧
    ((submitAfterUpload db inp { plan with linkInsertFails := g } v calls0
        imageUrl).2.1
      = (submitAfterUpload db inp plan v calls0 imageUrl).2.1) := by
  unfold submitAfterUpload
  have hproj : ({ plan with linkInsertFails := g }
      : FailurePlan).postInsertFails = plan.postInsertFails := rfl
  rw [hproj]
  by_cases hpf : plan.postInsertFails
  · rw [if_pos hpf, if_pos hpf]
    exact ⟨rfl, rfl⟩
  · rw [if_neg hpf, if_neg hpf]
    cases hip : insertPost db (mkNewPost db inp v imageUrl) with
    | error e => exact ⟨rfl, rfl⟩
    | ok db1 =>
      by_cases htg : (v.tags == "") = true
      · rw [htg]
        exact ⟨rfl, rfl⟩
      · rw [Bool.eq_false_iff.mpr htg]
        obtain ⟨ho, hc, _, _⟩ := processTags_link_failures_ignored plan g
          db.nextId (parseTags v.tags) 0 { db1 with nextId := db1.nextId + 1 }
          { db1 with nextId := db1.nextId + 1 } rfl rfl
        exact ⟨ho.symm, congrArg
          (fun x => calls0 ++ Call.postsInsert (generateSlug v.title) :: x)
          hc.symm⟩

/-- The tag loop only reads the failure plan pointwise at the iterations it
reaches: two plans that agree from iteration `i` on drive identical runs. -/
theorem processTags_plan_congr (plan plan2 : FailurePlan) (postId : Nat)
    (names : List String) :
    ∀ (i : Nat) (db : DB),
      (∀ j, i ≤ j → plan.tagSelectFails j = plan2.tagSelectFails j) →
      (∀ j, i ≤ j → plan.tagInsertFails j = plan2.tagInsertFails j) →
      (∀ j, i ≤ j → plan.linkInsertFails j = plan2.linkInsertFails j) →
      processTags plan postId i db names
        = processTags plan2 postId i db names := by
  induction names with
  | nil =>
    intro i db _ _ _
    rfl
  | cons name rest ih =>
    intro i db hsf hif hlf
    have hsf0 := hsf i (Nat.le_refl i)
    have hif0 := hif i (Nat.le_refl i)
    have hlf0 := hlf i (Nat.le_refl i)
    have hsfA : ∀ j, i + 1 ≤ j →
        plan.tagSelectFails j = plan2.tagSelectFails j :=
      fun j hj => hsf j (Nat.le_of_succ_le hj)
    have hifA : ∀ j, i + 1 ≤ j →
        plan.tagInsertFails j = plan2.tagInsertFails j :=
      fun j hj => hif j (Nat.le_of_succ_le hj)
    have hlfA : ∀ j, i + 1 ≤ j →
        plan.linkInsertFails j = plan2.linkInsertFails j :=
      fun j hj => hlf j (Nat.le_of_succ_le hj)
    cases hs : (if plan.tagSelectFails i = true then (none : Option Tag)
        else findTagBySlug db (generateSlug name)) with
    | some t =>
      have hs2 : (if plan2.tagSelectFails i = true then (none : Option Tag)
          else findTagBySlug db (generateSlug name)) = some t := by
        rw [← hsf0]
        exact hs
      rw [processTags_cons_found plan postId i db name rest t hs,
        processTags_cons_found plan2 postId i db name rest t hs2,
        hlf0, ih (i + 1) _ hsfA hifA hlfA]
    | none =>
      have hs2 : (if plan2.tagSelectFails i = true then (none : Option Tag)
          else findTagBySlug db (generateSlug name)) = none := by
        rw [← hsf0]
        exact hs
      by_cases hpi : plan.tagInsertFails i
      · rw [processTags_cons_abort plan postId i db name rest hs (Or.inl hpi),
          processTags_cons_abort plan2 postId i db name rest hs2
            (Or.inl (hif0 ▸ hpi))]
      · by_cases hg2 : (db.tags.any fun u =>
            u.slug == generateSlug name || u.name == name) = true
        · rw [processTags_cons_abort plan postId i db name rest hs
              (Or.inr (insertTag_error hg2)),
            processTags_cons_abort plan2 postId i db name rest hs2
              (Or.inr (insertTag_error hg2))]
        · rw [processTags_cons_new plan postId i db name rest hs
              (Bool.eq_false_iff.mpr hpi) (Bool.eq_false_iff.mpr hg2),
            processTags_cons_new plan2 postId i db name rest hs2
              (hif0 ▸ Bool.eq_false_iff.mpr hpi) (Bool.eq_false_iff.mpr hg2),
            hlf0, ih (i + 1) _ hsfA hifA hlfA]

/-- A submission whose post insert goes through but whose first tag insert
fails aborts carrying the tag-insert error, with the already-inserted post
row retained.  Stated after the image stage, for any accumulated calls and
image URL. -/
theorem submitAfterUpload_first_tag_abort (db : DB) (inp : SubmitInput)
    (plan : FailurePlan) (v : ValidatedPost) (calls0 : List Call)
    (imageUrl : Option String) (name : String) (rest : List String)
    (hpf : plan.postInsertFails = false)
    (hfresh : (db.posts.any fun q => q.slug == generateSlug v.title) = false)
    (hparse : parseTags v.tags = name :: rest)
    (hsel : (if plan.tagSelectFails 0 then none
      else findTagBySlug db (generateSlug name)) = (none : Option Tag))
    (hfail : plan.tagInsertFails 0 = true ∨
      (db.tags.any fun u =>
        u.slug == generateSlug name || u.name == name) = true) :
    submitAfterUpload db inp plan v calls0 imageUrl
      = ({ db with
          posts := db.posts ++ [mkNewPost db inp v imageUrl]
          nextId := db.nextId + 1 },
        calls0 ++ [Call.postsInsert (generateSlug v.title),
          Call.tagsSelect (generateSlug name),
          Call.tagsInsert name (generateSlug name)],
        .error (SubmitError.tagInsert 0)) := by
  have hne : (v.tags == "") = false := by
    cases hvt : (v.tags == "") with
    | false => rfl
    | true =>
      have hvt2 : v.tags = "" := by simpa using hvt
      rw [hvt2] at hparse
      simp [parseTags, splitOnChar, trimChars, List.dropWhile] at hparse
  have hip : insertPost db (mkNewPost db inp v imageUrl)
      = .ok { db with posts := db.posts ++ [mkNewPost db inp v imageUrl] } :=
    @insertPost_ok db (mkNewPost db inp v imageUrl) hfresh
  simp only [submitAfterUpload, hpf, if_false, hip, hne, hparse]
  have habort := processTags_cons_abort plan db.nextId 0
    { db with
      posts := db.posts ++ [mkNewPost db inp v imageUrl]
      nextId := db.nextId + 1 }
    name rest (by simpa using hsel)
    (by
      rcases hfail with hfail | hfail
      · exact Or.inl hfail
      · exact Or.inr (insertTag_error (by simpa using hfail)))
  rw [habort]
  simp

/-- C2 counterexample: two backend failures the operation never surfaces.
With only the `post_tags` insert failing, the link insert is attempted (its
call appears in the trace) and fails (no link row is stored), yet
`handleSubmit` ends in success instead of the claimed failed state.  With
only the `tags` select failing on a fresh tag name, the lookup is issued and
fails, yet the run also ends in success. -/
theorem C2_counterexample :
    (linkFailPlan.linkInsertFails 0 = true ∧
      Call.postTagsInsert 1 2
        ∈ (handleSubmit emptyDb sampleInput linkFailPlan).2.1 ∧
      (handleSubmit emptyDb sampleInput linkFailPlan).1.post_tags = [] ∧
      (handleSubmit emptyDb sampleInput linkFailPlan).2.2 = .ok ()) ∧
    (tagSelectFailPlan.tagSelectFails 0 = true ∧
      Call.tagsSelect "politics"
        ∈ (handleSubmit emptyDb singleTagInput tagSelectFailPlan).2.1 ∧
      (handleSubmit emptyDb singleTagInput tagSelectFailPlan).2.2 = .ok ()) :=
  ⟨⟨rfl, by decide, by decide, by decide⟩, ⟨rfl, by decide, by decide⟩⟩

/-- C2 (amended): a backend failure in the image upload, in the post insert,
or in a tag-row insert is surfaced immediately: the remaining steps are
skipped, the operation terminates in a failed state carrying that first
error, and already-completed steps are not rolled back — after a completed
upload the stored image survives a post-insert failure, and both the stored
image and the inserted post row survive a tag-insert failure.  The other two
backend interactions differ: the `post_tags` link insert's outcome is
ignored, so its failures change neither the outcome nor the call trace; and
the `tags` lookup's error is discarded and read as "tag not found", so the
lookup's own failure is never the error carried — on a fresh tag slug the
run is indistinguishable from one whose lookup succeeded (and can complete
successfully), while on an existing slug the loop proceeds to a conflicting
tag insert whose error then aborts the operation (third conjunct, via the
select-failure case of its lookup hypothesis). -/
theorem C2_first_failure_propagated (db : DB) (inp : SubmitInput)
    (plan : FailurePlan) :
    (∀ img v, inp.image = some img →
      validatePost inp.title inp.content inp.excerpt inp.tags = .ok v →
      plan.uploadFails = true →
      handleSubmit db inp plan
        = (db, [Call.storageUpload (uploadPathFor inp img)],
          .error SubmitError.upload)) ∧
    (∀ v,
      validatePost inp.title inp.content inp.excerpt inp.tags = .ok v →
      (inp.image = none ∨ plan.uploadFails = false) →
      plan.postInsertFails = true →
      handleSubmit db inp plan
        = (uploadStepDb db inp,
          uploadStepCalls inp ++ [Call.postsInsert (generateSlug v.title)],
          .error SubmitError.postInsert)) ∧
    (∀ v name rest,
      validatePost inp.title inp.content inp.excerpt inp.tags = .ok v →
      (inp.image = none ∨ plan.uploadFails = false) →
      plan.postInsertFails = false →
      (db.posts.any fun q => q.slug == generateSlug v.title) = false →
      parseTags v.tags = name :: rest →
      (if plan.tagSelectFails 0 then none
        else findTagBySlug db (generateSlug name)) = (none : Option Tag) →
      plan.tagInsertFails 0 = true ∨
        (db.tags.any fun u =>
          u.slug == generateSlug name || u.name == name) = true →
      handleSubmit db inp plan
        = ({ uploadStepDb db inp with
            posts := (uploadStepDb db inp).posts
              ++ [mkNewPost (uploadStepDb db inp) inp v (uploadStepUrl inp)]
            nextId := (uploadStepDb db inp).nextId + 1 },
          uploadStepCalls inp ++ [Call.postsInsert (generateSlug v.title),
            Call.tagsSelect (generateSlug name),
            Call.tagsInsert name (generateSlug name)],
          .error (SubmitError.tagInsert 0))) ∧
    (∀ g, ((handleSubmit db inp { plan with linkInsertFails := g }).2.2
        = (handleSubmit db inp plan).2.2)
      ∧ ((handleSubmit db inp { plan with linkInsertFails := g }).2.1
        = (handleSubmit db inp plan).2.1)) ∧
    (∀ g postId i db2 name rest,
      plan.tagSelectFails i = true →
      g i = false →
      (∀ j, j ≠ i → g j = plan.tagSelectFails j) →
      findTagBySlug db2 (generateSlug name) = none →
      processTags plan postId i db2 (name :: rest)
        = processTags { plan with tagSelectFails := g } postId i db2
          (name :: rest)) := by
  refine ⟨?_, ?_, ?_, ?_, ?_⟩
  · intro img v himg hv hup
    simp only [handleSubmit, hv, himg, hup, if_true]
  · intro v hv himgok hpf
    cases himg : inp.image with
    | none =>
      simp only [handleSubmit, hv, himg, submitAfterUpload, hpf, if_true,
        uploadStepDb, uploadStepCalls, List.nil_append]
    | some img =>
      have hup : plan.uploadFails = false := by
        rcases himgok with h | h
        · rw [himg] at h
          exact absurd h (by simp)
        · exact h
      have h1 : handleSubmit db inp plan
          = submitAfterUpload
            { db with storageObjects
                := db.storageObjects ++ [uploadPathFor inp img] }
            inp plan v [Call.storageUpload (uploadPathFor inp img)]
            (some (publicUrlFor (uploadPathFor inp img))) := by
        unfold handleSubmit
        rw [hv, himg]
        dsimp only
        rw [if_neg (by simp [hup])]
      rw [h1]
      simp only [submitAfterUpload, hpf, if_true, uploadStepDb,
        uploadStepCalls, himg]
  · intro v name rest hv himgok hpf hfresh hparse hsel hfail
    cases himg : inp.image with
    | none =>
      have h1 : handleSubmit db inp plan
          = submitAfterUpload db inp plan v [] none := by
        unfold handleSubmit
        rw [hv, himg]
      rw [h1, submitAfterUpload_first_tag_abort db inp plan v [] none name
        rest hpf hfresh hparse hsel hfail]
      simp [uploadStepDb, uploadStepCalls, uploadStepUrl, himg]
    | some img =>
      have hup : plan.uploadFails = false := by
        rcases himgok with h | h
        · rw [himg] at h
          exact absurd h (by simp)
        · exact h
      have h1 : handleSubmit db inp plan
          = submitAfterUpload
            { db with storageObjects
                := db.storageObjects ++ [uploadPathFor inp img] }
            inp plan v [Call.storageUpload (uploadPathFor inp img)]
            (some (publicUrlFor (uploadPathFor inp img))) := by
        unfold handleSubmit
        rw [hv, himg]
        dsimp only
        rw [if_neg (by simp [hup])]
      rw [h1, submitAfterUpload_first_tag_abort
        { db with storageObjects
            := db.storageObjects ++ [uploadPathFor inp img] }
        inp plan v [Call.storageUpload (uploadPathFor inp img)]
        (some (publicUrlFor (uploadPathFor inp img))) name rest
        hpf hfresh hparse hsel hfail]
      simp [uploadStepDb, uploadStepCalls, uploadStepUrl, himg]
  · intro g
    unfold handleSubmit
    cases hv : validatePost inp.title inp.content inp.excerpt inp.tags with
    | error m => exact ⟨rfl, rfl⟩
    | ok v =>
      cases himg : inp.image with
      | none =>
        exact submitAfterUpload_link_failures_ignored db inp plan g v [] none
      | some img =>
        dsimp only
        by_cases hup : plan.uploadFails
        · rw [if_pos hup, if_pos hup]
          exact ⟨rfl, rfl⟩
        · rw [if_neg hup, if_neg hup]
          exact submitAfterUpload_link_failures_ignored _ inp plan g v _ _
  · intro g postId i db2 name rest hsf hgi hgj hfresh
    have hsel1 : (if plan.tagSelectFails i = true then (none : Option Tag)
        else findTagBySlug db2 (generateSlug name)) = none := by
      rw [if_pos hsf]
    have hsel2 : (if ({ plan with tagSelectFails := g }
          : FailurePlan).tagSelectFails i = true then (none : Option Tag)
        else findTagBySlug db2 (generateSlug name)) = none := by
      show (if g i = true then (none : Option Tag)
        else findTagBySlug db2 (generateSlug name)) = none
      rw [if_neg (by simp [hgi])]
      exact hfresh
    have hsfA : ∀ j, i + 1 ≤ j → plan.tagSelectFails j
        = ({ plan with tagSelectFails := g }
          : FailurePlan).tagSelectFails j := by
      intro j hj
      show plan.tagSelectFails j = g j
      exact (hgj j (by omega)).symm
    have hifA : ∀ j, i + 1 ≤ j → plan.tagInsertFails j
        = ({ plan with tagSelectFails := g }
          : FailurePlan).tagInsertFails j :=
      fun j _ => rfl
    have hlfA : ∀ j, i + 1 ≤ j → plan.linkInsertFails j
        = ({ plan with tagSelectFails := g }
          : FailurePlan).linkInsertFails j :=
      fun j _ => rfl
    by_cases hpi : plan.tagInsertFails i
    · rw [processTags_cons_abort plan postId i db2 name rest hsel1
          (Or.inl hpi),
        processTags_cons_abort { plan with tagSelectFails := g } postId i db2
          name rest hsel2 (Or.inl hpi)]
    · by_cases hg2 : (db2.tags.any fun u =>
          u.slug == generateSlug name || u.name == name) = true
      · rw [processTags_cons_abort plan postId i db2 name rest hsel1
            (Or.inr (insertTag_error hg2)),
          processTags_cons_abort { plan with tagSelectFails := g } postId i
            db2 name rest hsel2 (Or.inr (insertTag_error hg2))]
      · rw [processTags_cons_new plan postId i db2 name rest hsel1
            (Bool.eq_false_iff.mpr hpi) (Bool.eq_false_iff.mpr hg2),
          processTags_cons_new { plan with tagSelectFails := g } postId i db2
            name rest hsel2 (Bool.eq_false_iff.mpr hpi)
            (Bool.eq_false_iff.mpr hg2),
          show ({ plan with tagSelectFails := g }
            : FailurePlan).linkInsertFails = plan.linkInsertFails from rfl,
          processTags_plan_congr plan { plan with tagSelectFails := g }
            postId rest (i + 1) _ hsfA hifA hlfA]

/-- Witness for C2 (amended), post-insert conjunct, with an image attached:
the submission aborts carrying the post-insert error after the upload and
the insert call, and the stored image survives (no rollback). -/
theorem C2_first_failure_propagated_witness :
    handleSubmit emptyDb sampleInputImg postInsertFailPlan
      = (uploadStepDb emptyDb sampleInputImg,
        uploadStepCalls sampleInputImg
          ++ [Call.postsInsert (generateSlug sampleValidated.title)],
        .error SubmitError.postInsert) :=
  (C2_first_failure_propagated emptyDb sampleInputImg postInsertFailPlan).2.1
    sampleValidated (by decide) (Or.inr rfl) rfl

theorem processTags_posts (plan : FailurePlan) (postId : Nat)
    (names : List String) :
    ∀ (i : Nat) (db : DB), (processTags plan postId i db names).1.posts
      = db.posts := by
  induction names with
  | nil =>
    intro i db
    rfl
  | cons name rest ih =>
    intro i db
    cases hs : (if plan.tagSelectFails i = true then (none : Option Tag)
        else findTagBySlug db (generateSlug name)) with
    | some t =>
      rw [processTags_cons_found plan postId i db name rest t hs]
      show (processTags plan postId (i + 1) _ rest).1.posts = db.posts
      rw [ih, (linkStep_fields _ db postId t.id).2.2]
    | none =>
      by_cases hpi : plan.tagInsertFails i
      · rw [processTags_cons_abort plan postId i db name rest hs (Or.inl hpi)]
      · by_cases hg : (db.tags.any fun u =>
            u.slug == generateSlug name || u.name == name) = true
        · rw [processTags_cons_abort plan postId i db name rest hs
            (Or.inr (insertTag_error hg))]
        · rw [processTags_cons_new plan postId i db name rest hs
            (Bool.eq_false_iff.mpr hpi) (Bool.eq_false_iff.mpr hg)]
          show (processTags plan postId (i + 1) _ rest).1.posts = db.posts
          rw [ih, (linkStep_fields _ (tagStepDb db name) postId
            db.nextId).2.2]
          rfl

/-- C10: when validation succeeds and the post insert goes through (no image
attached), the stored post row is exactly the assembled row, whose excerpt is
the first 200 characters of the (trimmed) content when the trimmed excerpt is
empty, and the trimmed excerpt itself otherwise. -/
theorem C10_excerpt_defaulting (db : DB) (inp : SubmitInput)
    (plan : FailurePlan) (v : ValidatedPost)
    (hv : validatePost inp.title inp.content inp.excerpt inp.tags = .ok v)
    (himg : inp.image = none)
    (hpf : plan.postInsertFails = false)
    (hfresh : (db.posts.any fun q => q.slug == generateSlug v.title) = false) :
    (handleSubmit db inp plan).1.posts
        = db.posts ++ [mkNewPost db inp v none] ∧
    (mkNewPost db inp v none).id = db.nextId ∧
    (v.excerpt = "" →
      (mkNewPost db inp v none).excerpt
        = String.mk (v.content.data.take 200)) ∧
    (v.excerpt ≠ "" → (mkNewPost db inp v none).excerpt = v.excerpt) := by
  refine ⟨?_, rfl, ?_, ?_⟩
  · have hip : insertPost db (mkNewPost db inp v none)
        = .ok { db with posts := db.posts ++ [mkNewPost db inp v none] } :=
      @insertPost_ok db (mkNewPost db inp v none) hfresh
    simp only [handleSubmit, hv, himg, submitAfterUpload, hpf, hip]
    rw [if_neg (by simp)]
    by_cases htg : (v.tags == "") = true
    · rw [if_pos htg]
    · rw [if_neg htg]
      show (processTags plan db.nextId 0 _ (parseTags v.tags)).1.posts
        = db.posts ++ [mkNewPost db inp v none]
      rw [processTags_posts]
  · intro he
    simp [mkNewPost, he]
  · intro he
    have he2 : (v.excerpt == "") = false := by
      rw [Bool.eq_false_iff]
      simpa using he
    simp [mkNewPost, he2]

/-- Witness for C10 at `sampleInput` (whose excerpt is empty): the stored
row's excerpt is the 200-character prefix of the content. -/
theorem C10_excerpt_defaulting_witness :
    (handleSubmit emptyDb sampleInput noFailPlan).1.posts
        = emptyDb.posts ++ [mkNewPost emptyDb sampleInput sampleValidated none]
      ∧ (mkNewPost emptyDb sampleInput sampleValidated none).excerpt
        = String.mk (sampleValidated.content.data.take 200) :=
  ⟨(C10_excerpt_defaulting emptyDb sampleInput noFailPlan sampleValidated
      (by decide) rfl rfl (by decide)).1,
    (C10_excerpt_defaulting emptyDb sampleInput noFailPlan sampleValidated
      (by decide) rfl rfl (by decide)).2.2.1 rfl⟩


/-- C6: two tag names that differ only in letter casing (equal once
lower-cased) derive the same slug; resolving the second name right after the
first finds the tag just created and reuses its identifier: no second tag row
is inserted (the stored row keeps the first-seen casing of the name), and the
duplicate link insert is swallowed by the unique-pair constraint, leaving a
single link. -/
theorem C6_case_insensitive_tag_reuse (n1 n2 : String) (db : DB)
    (postId : Nat)
    (hcase : n1.data.map lowerChar = n2.data.map lowerChar)
    (hslug : ∀ t ∈ db.tags, t.slug ≠ generateSlug n1)
    (hname : ∀ t ∈ db.tags, t.name ≠ n1)
    (hnolink : (postId, db.nextId) ∉ db.post_tags) :
    generateSlug n1 = generateSlug n2 ∧
    processTags noFailPlan postId 0 db [n1, n2]
      = ({ db with
          tags := db.tags ++ [⟨db.nextId, n1, generateSlug n1⟩]
          post_tags := db.post_tags ++ [(postId, db.nextId)]
          nextId := db.nextId + 1 },
        [Call.tagsSelect (generateSlug n1),
          Call.tagsInsert n1 (generateSlug n1),
          Call.postTagsInsert postId db.nextId,
          Call.tagsSelect (generateSlug n1),
          Call.postTagsInsert postId db.nextId],
        .ok ()) := by
  have heq : generateSlug n1 = generateSlug n2 := by
    unfold generateSlug
    rw [hcase]
  refine ⟨heq, ?_⟩
  have hfind : findTagBySlug db (generateSlug n1) = none := by
    unfold findTagBySlug
    rw [List.find?_eq_none]
    intro t ht
    simpa using hslug t ht
  have hsel0 : (if noFailPlan.tagSelectFails 0 then none
      else findTagBySlug db (generateSlug n1)) = (none : Option Tag) := by
    rw [if_neg (by decide)]
    exact hfind
  have hguard0 : (db.tags.any fun u =>
      u.slug == generateSlug n1 || u.name == n1) = false := by
    rw [Bool.eq_false_iff]
    intro hany
    obtain ⟨u, hu, hp⟩ := List.any_eq_true.mp hany
    simp only [Bool.or_eq_true, beq_iff_eq] at hp
    rcases hp with hp | hp
    · exact hslug u hu hp
    · exact hname u hu hp
  rw [processTags_cons_new noFailPlan postId 0 db n1 [n2] hsel0 rfl hguard0]
  have hany1 : ((tagStepDb db n1).post_tags.any fun pr =>
      pr.1 == postId && pr.2 == db.nextId) = false := by
    rw [Bool.eq_false_iff]
    intro hy
    obtain ⟨pr, hpr, hp⟩ := List.any_eq_true.mp hy
    simp only [Bool.and_eq_true, beq_iff_eq] at hp
    apply hnolink
    have hpr2 : pr = (postId, db.nextId) := Prod.ext hp.1 hp.2
    rw [← hpr2]
    exact hpr
  have hlink0 : linkStep (noFailPlan.linkInsertFails 0) (tagStepDb db n1)
      postId db.nextId
      = { db with
          tags := db.tags ++ [⟨db.nextId, n1, generateSlug n1⟩]
          post_tags := db.post_tags ++ [(postId, db.nextId)]
          nextId := db.nextId + 1 } := by
    show insertLink (tagStepDb db n1) postId db.nextId = _
    unfold insertLink
    rw [hany1]
    rw [if_neg (by simp)]
    rfl
  rw [hlink0]
  have hfind1 : findTagBySlug
      { db with
        tags := db.tags ++ [⟨db.nextId, n1, generateSlug n1⟩]
        post_tags := db.post_tags ++ [(postId, db.nextId)]
        nextId := db.nextId + 1 } (generateSlug n2)
      = some ⟨db.nextId, n1, generateSlug n1⟩ := by
    unfold findTagBySlug
    show ((db.tags ++ [(⟨db.nextId, n1, generateSlug n1⟩ : Tag)]).find? fun t =>
      t.slug == generateSlug n2) = _
    rw [List.find?_append]
    have hnone : (db.tags.find? fun t => t.slug == generateSlug n2) = none := by
      rw [List.find?_eq_none]
      intro t ht
      rw [← heq]
      simpa using hslug t ht
    rw [hnone, Option.none_or]
    have : ((⟨db.nextId, n1, generateSlug n1⟩ : Tag).slug
        == generateSlug n2) = true := by
      simp [← heq]
    simp [List.find?, this]
  have hsel1 : (if noFailPlan.tagSelectFails 1 then none
      else findTagBySlug
        { db with
          tags := db.tags ++ [⟨db.nextId, n1, generateSlug n1⟩]
          post_tags := db.post_tags ++ [(postId, db.nextId)]
          nextId := db.nextId + 1 } (generateSlug n2))
      = some ⟨db.nextId, n1, generateSlug n1⟩ := by
    rw [if_neg (by decide)]
    exact hfind1
  rw [processTags_cons_found noFailPlan postId 1 _ n2 [] _ hsel1]
  have hlink1 : linkStep (noFailPlan.linkInsertFails 1)
      { db with
        tags := db.tags ++ [⟨db.nextId, n1, generateSlug n1⟩]
        post_tags := db.post_tags ++ [(postId, db.nextId)]
        nextId := db.nextId + 1 } postId db.nextId
      = { db with
          tags := db.tags ++ [⟨db.nextId, n1, generateSlug n1⟩]
          post_tags := db.post_tags ++ [(postId, db.nextId)]
          nextId := db.nextId + 1 } := by
    show insertLink _ postId db.nextId = _
    unfold insertLink
    rw [if_pos]
    rw [List.any_eq_true]
    exact ⟨(postId, db.nextId), List.mem_append_right _ (by simp), by simp⟩
  rw [hlink1, ← heq]
  rfl

/-- Witness for C6: `"Politics"` then `"politics"` on an empty backend — one
tag row named `Politics`, one link, success. -/
theorem C6_case_insensitive_tag_reuse_witness :
    generateSlug "Politics" = generateSlug "politics" ∧
    processTags noFailPlan 9 0 emptyDb ["Politics", "politics"]
      = ({ emptyDb with
          tags := emptyDb.tags ++ [⟨emptyDb.nextId, "Politics",
            generateSlug "Politics"⟩]
          post_tags := emptyDb.post_tags ++ [(9, emptyDb.nextId)]
          nextId := emptyDb.nextId + 1 },
        [Call.tagsSelect (generateSlug "Politics"),
          Call.tagsInsert "Politics" (generateSlug "Politics"),
          Call.postTagsInsert 9 emptyDb.nextId,
          Call.tagsSelect (generateSlug "Politics"),
          Call.postTagsInsert 9 emptyDb.nextId],
        .ok ()) :=
  C6_case_insensitive_tag_reuse "Politics" "politics" emptyDb 9 (by decide)
    (by decide) (by decide) (by decide)


/-! ## Claims about the read paths -/

theorem byCreatedDesc_trans (a b c : Post) (h1 : byCreatedDesc a b = true)
    (h2 : byCreatedDesc b c = true) : byCreatedDesc a c = true := by
  simp only [byCreatedDesc, decide_eq_true_eq] at h1 h2 ⊢
  omega

theorem byCreatedDesc_total (a b : Post) :
    (byCreatedDesc a b || byCreatedDesc b a) = true := by
  simp only [byCreatedDesc, Bool.or_eq_true, decide_eq_true_eq]
  omega

/-- C8: the public listing query succeeds with exactly the published posts,
ordered by creation time descending (each element is no younger than the
next), and mutates nothing: the backend state comes back unchanged. -/
theorem C8_fetchPosts_published_desc (db : DB) :
    (fetchPosts db false).1 = db ∧
    ∃ l, (fetchPosts db false).2 = .ok l ∧
      (∀ p, p ∈ l ↔ p ∈ db.posts ∧ p.published = true) ∧
      l.Pairwise (fun a b => b.created_at ≤ a.created_at) := by
  refine ⟨rfl, _, rfl, ?_, ?_⟩
  · intro p
    rw [(List.mergeSort_perm _ _).mem_iff, List.mem_filter]
  · have hs := List.sorted_mergeSort byCreatedDesc_trans byCreatedDesc_total
      (db.posts.filter (fun p => p.published))
    exact hs.imp (fun hab => by simpa [byCreatedDesc] using hab)

/-- A backend state holding one published post with slug `a`. -/
def dbWithPost : DB :=
  ⟨[], [⟨1, "T", "a", "content", "e", none, "author-1", true, 3⟩], [], [], 5⟩

/-- C9 counterexample: the `PostDetail` page renders the same "not found"
state after a backend/transport failure (only logged by its `catch`) as after
an unknown slug, even though the requested post exists and is published; the
`TagPosts` state after a failing tag select equals the unknown-slug state.
The caller does not render "not found" and failure differently. -/
theorem C9_counterexample :
    (fetchPostQuery dbWithPost "a" true).2 = .error () ∧
    postDetailShowsNotFound dbWithPost "a" false = false ∧
    postDetailShowsNotFound dbWithPost "a" true = true ∧
    postDetailShowsNotFound dbWithPost "zzz" false = true ∧
    tagPostsState dbWithPost "zzz" true false
      = tagPostsState dbWithPost "zzz" false false :=
  ⟨rfl, by decide, by decide, by decide, by decide⟩

/-- C9 (amended): on the read paths an unknown slug yields a valid empty
"not found" result rather than an error — `maybeSingle` answers `none`, the
tag page early-returns its initial state, and a tag with zero associated
posts yields an empty list — and the raw query response does distinguish
not-found (`ok`) from a transport/backend failure (`error`); the page
components, however, collapse a failure into the very same rendering state as
"not found" (the failure is only logged to the console). -/
theorem C9_not_found_vs_failure (db : DB) (slug : String) :
    ((∀ p ∈ db.posts, ¬(p.slug = slug ∧ p.published = true)) →
      (fetchPostQuery db slug false).2 = .ok none) ∧
    ((∀ t ∈ db.tags, t.slug ≠ slug) →
      fetchPostsByTagQuery db slug false false = .ok ⟨"", []⟩) ∧
    (∀ t, db.tags.filter (fun u => u.slug == slug) = [t] →
      (∀ pr ∈ db.post_tags, pr.2 ≠ t.id) →
      fetchPostsByTagQuery db slug false false = .ok ⟨t.name, []⟩) ∧
    (fetchPostQuery db slug true).2 = .error () ∧
    postDetailState db slug true = none ∧
    tagPostsState db slug true false = ⟨"", []⟩ := by
  refine ⟨?_, ?_, ?_, rfl, rfl, rfl⟩
  · intro h
    have hf : db.posts.filter (fun p => p.slug == slug && p.published) = [] := by
      rw [List.filter_eq_nil_iff]
      intro p hp
      simp only [Bool.and_eq_true, beq_iff_eq, not_and]
      intro h1 h2
      exact h p hp ⟨h1, h2⟩
    show (if false = true then (Except.error () : Except Unit (Option Post))
      else match db.posts.filter (fun p => p.slug == slug && p.published) with
        | [] => .ok none
        | [p] => .ok (some p)
        | _ => .error ()) = .ok none
    rw [if_neg (by simp), hf]
  · intro h
    have hf : db.tags.filter (fun t => t.slug == slug) = [] := by
      rw [List.filter_eq_nil_iff]
      intro t ht
      simpa using h t ht
    unfold fetchPostsByTagQuery
    rw [if_neg (by simp), hf]
  · intro t hft hlinks
    have hf : db.post_tags.filter (fun pr => pr.2 == t.id) = [] := by
      rw [List.filter_eq_nil_iff]
      intro pr hpr
      simpa using hlinks pr hpr
    unfold fetchPostsByTagQuery
    rw [if_neg (by simp), hft]
    show (if false = true then (Except.error () : Except Unit TagPostsState)
      else Except.ok ⟨t.name,
        (db.post_tags.filter (fun pr => pr.2 == t.id)).filterMap
          (fun pr => db.posts.find? (fun p => p.id == pr.1))⟩)
      = Except.ok ⟨t.name, []⟩
    rw [if_neg (by simp), hf]
    rfl

/-- Witness for C9 (amended) at a concrete state: the unknown slug `zzz`
yields the valid empty result `ok none`, not an error. -/
theorem C9_not_found_vs_failure_witness :
    (fetchPostQuery dbWithPost "zzz" false).2 = .ok none :=
  (C9_not_found_vs_failure dbWithPost "zzz").1 (by decide)


/-! ## Tag parsing and link deduplication (C3) -/

/-- The slug requested by a `tags` select call, if the call is one. -/
def selectedSlug : Call → Option String
  | Call.tagsSelect s => some s
  | _ => none

/-- The slugs of the tags linked to a post, in link order: each link's tag
identifier resolved through the tag table. -/
def linkSlugsOf (db : DB) (postId : Nat) : List (Option String) :=
  (db.post_tags.filter (fun pr => pr.1 == postId)).map
    (fun pr => (db.tags.find? (fun t => t.id == pr.2)).map Tag.slug)

/-- Well-formedness of the backend state before a submission, as guaranteed
by the modelled uniqueness constraints and identifier allocation: tag slugs
and identifiers are unique, identifiers are below the allocation counter, and
link rows are unique pairs referencing allocated posts. -/
structure WFdb (db : DB) : Prop where
  slugsNodup : (db.tags.map Tag.slug).Nodup
  idsNodup : (db.tags.map Tag.id).Nodup
  idLt : ∀ t ∈ db.tags, t.id < db.nextId
  linksNodup : db.post_tags.Nodup
  linkPostLt : ∀ pr ∈ db.post_tags, pr.1 < db.nextId

/-- The invariant carried through the tag loop for the freshly inserted
post's identifier. -/
structure LoopInv (postId : Nat) (db : DB) : Prop where
  slugsNodup : (db.tags.map Tag.slug).Nodup
  idsNodup : (db.tags.map Tag.id).Nodup
  idLt : ∀ t ∈ db.tags, t.id < db.nextId
  linksNodup : db.post_tags.Nodup
  linkTag : ∀ pr ∈ db.post_tags, pr.1 = postId → ∃ t ∈ db.tags, t.id = pr.2

theorem nodup_append_single {α : Type} {l : List α} {a : α} (hn : l.Nodup)
    (ha : a ∉ l) : (l ++ [a]).Nodup := by
  rw [List.nodup_append]
  refine ⟨hn, List.nodup_singleton a, ?_⟩
  intro x hx hxa
  rw [List.mem_singleton] at hxa
  subst hxa
  exact ha hx

theorem loopInv_insertLink {postId : Nat} {db : DB} (h : LoopInv postId db)
    (tid : Nat) (htid : ∃ t ∈ db.tags, t.id = tid) :
    LoopInv postId (insertLink db postId tid) := by
  unfold insertLink
  by_cases hg : (db.post_tags.any fun pr =>
      pr.1 == postId && pr.2 == tid) = true
  · rw [if_pos hg]
    exact h
  · rw [if_neg hg]
    refine ⟨h.slugsNodup, h.idsNodup, h.idLt, ?_, ?_⟩
    · refine nodup_append_single h.linksNodup ?_
      intro hmem
      apply hg
      rw [List.any_eq_true]
      exact ⟨(postId, tid), hmem, by simp⟩
    · intro pr hpr hpr1
      rcases List.mem_append.mp hpr with hpr | hpr
      · exact h.linkTag pr hpr hpr1
      · rw [List.mem_singleton] at hpr
        subst hpr
        exact htid

theorem loopInv_linkStep {postId : Nat} {db : DB} (b : Bool)
    (h : LoopInv postId db) (tid : Nat)
    (htid : ∃ t ∈ db.tags, t.id = tid) :
    LoopInv postId (linkStep b db postId tid) := by
  unfold linkStep
  cases b
  · exact loopInv_insertLink h tid htid
  · exact h

theorem loopInv_tagStep {postId : Nat} {db : DB} (h : LoopInv postId db)
    (name : String)
    (hguard : (db.tags.any fun u =>
      u.slug == generateSlug name || u.name == name) = false) :
    LoopInv postId (tagStepDb db name) := by
  have hfreshSlug : ∀ u ∈ db.tags, u.slug ≠ generateSlug name := by
    intro u hu heq
    have : (db.tags.any fun u =>
        u.slug == generateSlug name || u.name == name) = true := by
      rw [List.any_eq_true]
      exact ⟨u, hu, by simp [heq]⟩
    rw [this] at hguard
    exact absurd hguard (by simp)
  refine ⟨?_, ?_, ?_, h.linksNodup, ?_⟩
  · show ((db.tags ++ [(⟨db.nextId, name, generateSlug name⟩ : Tag)]).map
      Tag.slug).Nodup
    rw [List.map_append]
    refine nodup_append_single h.slugsNodup ?_
    intro hmem
    obtain ⟨u, hu, hus⟩ := List.mem_map.mp hmem
    exact hfreshSlug u hu hus
  · show ((db.tags ++ [(⟨db.nextId, name, generateSlug name⟩ : Tag)]).map
      Tag.id).Nodup
    rw [List.map_append]
    refine nodup_append_single h.idsNodup ?_
    intro hmem
    obtain ⟨u, hu, hui⟩ := List.mem_map.mp hmem
    exact Nat.lt_irrefl _ (hui ▸ h.idLt u hu)
  · intro t ht
    rcases List.mem_append.mp ht with ht | ht
    · exact Nat.lt_succ_of_lt (h.idLt t ht)
    · rw [List.mem_singleton] at ht
      subst ht
      exact Nat.lt_succ_self _
  · intro pr hpr hpr1
    obtain ⟨t, ht, hti⟩ := h.linkTag pr hpr hpr1
    exact ⟨t, List.mem_append_left _ ht, hti⟩


/-- The tag loop preserves the invariant, whatever the failure plan. -/
theorem processTags_loopInv (plan : FailurePlan) (postId : Nat)
    (names : List String) :
    ∀ (i : Nat) (db : DB), LoopInv postId db →
      LoopInv postId (processTags plan postId i db names).1 := by
  induction names with
  | nil =>
    intro i db h
    exact h
  | cons name rest ih =>
    intro i db h
    cases hs : (if plan.tagSelectFails i = true then (none : Option Tag)
        else findTagBySlug db (generateSlug name)) with
    | some t =>
      rw [processTags_cons_found plan postId i db name rest t hs]
      show LoopInv postId (processTags plan postId (i + 1) _ rest).1
      apply ih
      apply loopInv_linkStep (plan.linkInsertFails i) h t.id
      have hfind : findTagBySlug db (generateSlug name) = some t := by
        by_cases hsf : plan.tagSelectFails i = true
        · rw [if_pos hsf] at hs
          exact absurd hs (by simp)
        · rw [if_neg hsf] at hs
          exact hs
      exact ⟨t, List.mem_of_find?_eq_some hfind, rfl⟩
    | none =>
      by_cases hpi : plan.tagInsertFails i
      · rw [processTags_cons_abort plan postId i db name rest hs (Or.inl hpi)]
        exact h
      · by_cases hg : (db.tags.any fun u =>
            u.slug == generateSlug name || u.name == name) = true
        · rw [processTags_cons_abort plan postId i db name rest hs
            (Or.inr (insertTag_error hg))]
          exact h
        · rw [processTags_cons_new plan postId i db name rest hs
            (Bool.eq_false_iff.mpr hpi) (Bool.eq_false_iff.mpr hg)]
          show LoopInv postId (processTags plan postId (i + 1) _ rest).1
          apply ih
          apply loopInv_linkStep (plan.linkInsertFails i)
            (loopInv_tagStep h name (Bool.eq_false_iff.mpr hg)) db.nextId
          exact ⟨⟨db.nextId, name, generateSlug name⟩,
            List.mem_append_right _ (List.mem_singleton.mpr rfl), rfl⟩

/-- On a successful run, the slugs looked up by the loop's `tags` selects are
exactly the slugs of the given names, in order: one lookup per name, no
re-query. -/
theorem processTags_selects (plan : FailurePlan) (postId : Nat)
    (names : List String) :
    ∀ (i : Nat) (db : DB),
      (processTags plan postId i db names).2.2 = .ok () →
      (processTags plan postId i db names).2.1.filterMap selectedSlug
        = names.map generateSlug := by
  induction names with
  | nil =>
    intro i db _
    rfl
  | cons name rest ih =>
    intro i db hok
    cases hs : (if plan.tagSelectFails i = true then (none : Option Tag)
        else findTagBySlug db (generateSlug name)) with
    | some t =>
      rw [processTags_cons_found plan postId i db name rest t hs] at hok ⊢
      show List.filterMap selectedSlug (Call.tagsSelect (generateSlug name)
          :: Call.postTagsInsert postId t.id
          :: (processTags plan postId (i + 1) _ rest).2.1)
        = generateSlug name :: rest.map generateSlug
      rw [List.filterMap_cons, List.filterMap_cons]
      show generateSlug name
          :: List.filterMap selectedSlug
            (processTags plan postId (i + 1) _ rest).2.1
        = generateSlug name :: rest.map generateSlug
      exact congrArg (fun x => generateSlug name :: x) (ih (i + 1) _ hok)
    | none =>
      by_cases hpi : plan.tagInsertFails i
      · rw [processTags_cons_abort plan postId i db name rest hs
          (Or.inl hpi)] at hok
        simp at hok
      · by_cases hg : (db.tags.any fun u =>
            u.slug == generateSlug name || u.name == name) = true
        · rw [processTags_cons_abort plan postId i db name rest hs
            (Or.inr (insertTag_error hg))] at hok
          simp at hok
        · rw [processTags_cons_new plan postId i db name rest hs
            (Bool.eq_false_iff.mpr hpi) (Bool.eq_false_iff.mpr hg)] at hok ⊢
          show List.filterMap selectedSlug (Call.tagsSelect (generateSlug name)
              :: Call.tagsInsert name (generateSlug name)
              :: Call.postTagsInsert postId db.nextId
              :: (processTags plan postId (i + 1) _ rest).2.1)
            = generateSlug name :: rest.map generateSlug
          rw [List.filterMap_cons, List.filterMap_cons, List.filterMap_cons]
          show generateSlug name
              :: List.filterMap selectedSlug
                (processTags plan postId (i + 1) _ rest).2.1
            = generateSlug name :: rest.map generateSlug
          exact congrArg (fun x => generateSlug name :: x) (ih (i + 1) _ hok)

/-- The loop invariant makes the slugs linked to the post pairwise distinct:
at most one link per unique tag slug. -/
theorem linkSlugs_nodup_of_inv {postId : Nat} {db : DB}
    (h : LoopInv postId db) : (linkSlugsOf db postId).Nodup := by
  unfold linkSlugsOf
  refine List.Nodup.map_on ?_ (h.linksNodup.filter _)
  intro x hx y hy hxy
  rw [List.mem_filter] at hx hy
  have hx1 : x.1 = postId := by simpa using hx.2
  have hy1 : y.1 = postId := by simpa using hy.2
  have hfx : ∃ u, db.tags.find? (fun t => t.id == x.2) = some u := by
    obtain ⟨tx, htx, htxid⟩ := h.linkTag x hx.1 hx1
    refine Option.isSome_iff_exists.mp ?_
    rw [List.find?_isSome]
    exact ⟨tx, htx, by simp [htxid]⟩
  have hfy : ∃ u, db.tags.find? (fun t => t.id == y.2) = some u := by
    obtain ⟨ty, hty, htyid⟩ := h.linkTag y hy.1 hy1
    refine Option.isSome_iff_exists.mp ?_
    rw [List.find?_isSome]
    exact ⟨ty, hty, by simp [htyid]⟩
  obtain ⟨tx, hfx⟩ := hfx
  obtain ⟨ty, hfy⟩ := hfy
  rw [hfx, hfy] at hxy
  have hslug : tx.slug = ty.slug := by simpa using hxy
  have heq : tx = ty := List.inj_on_of_nodup_map h.slugsNodup
    (List.mem_of_find?_eq_some hfx) (List.mem_of_find?_eq_some hfy) hslug
  have hxid : tx.id = x.2 := by simpa using List.find?_some hfx
  have hyid : ty.id = y.2 := by simpa using List.find?_some hfy
  apply Prod.ext
  · rw [hx1, hy1]
  · rw [← hxid, ← hyid, heq]


theorem insertPost_error {db : DB} {p : Post}
    (h : (db.posts.any fun q => q.slug == p.slug) = true) :
    insertPost db p = .error () := by
  simp [insertPost, h]

/-- After the optional upload, a completed submission looked up exactly the
parsed tag names' slugs, and the links stored for the new post carry pairwise
distinct slugs. -/
theorem submitAfterUpload_ok_props (db : DB) (inp : SubmitInput)
    (plan : FailurePlan) (v : ValidatedPost) (calls0 : List Call)
    (imageUrl : Option String)
    (hwf : WFdb db)
    (hcalls0 : calls0.filterMap selectedSlug = [])
    (hok : (submitAfterUpload db inp plan v calls0 imageUrl).2.2 = .ok ()) :
    ((submitAfterUpload db inp plan v calls0 imageUrl).2.1.filterMap
        selectedSlug = (parseTags v.tags).map generateSlug) ∧
    (linkSlugsOf (submitAfterUpload db inp plan v calls0 imageUrl).1
      db.nextId).Nodup := by
  by_cases hpf : plan.postInsertFails = true
  · unfold submitAfterUpload at hok
    rw [if_pos hpf] at hok
    simp at hok
  · have hpf2 : plan.postInsertFails = false := Bool.eq_false_iff.mpr hpf
    by_cases hfresh : (db.posts.any fun q =>
        q.slug == (mkNewPost db inp v imageUrl).slug) = true
    · have hip : insertPost db (mkNewPost db inp v imageUrl) = .error () :=
        insertPost_error hfresh
      unfold submitAfterUpload at hok
      rw [if_neg hpf, hip] at hok
      simp at hok
    · have hip := @insertPost_ok db (mkNewPost db inp v imageUrl)
        (Bool.eq_false_iff.mpr hfresh)
      simp only [submitAfterUpload, hpf2, hip] at hok ⊢
      rw [if_neg (by simp)] at hok ⊢
      by_cases htg : (v.tags == "") = true
      · rw [if_pos htg] at hok ⊢
        constructor
        · have hvt : v.tags = "" := by simpa using htg
          rw [hvt]
          show (calls0 ++ [Call.postsInsert (generateSlug v.title)]).filterMap
            selectedSlug = (parseTags "").map generateSlug
          rw [List.filterMap_append, hcalls0]
          rfl
        · show (linkSlugsOf _ db.nextId).Nodup
          unfold linkSlugsOf
          have hnil : db.post_tags.filter (fun pr => pr.1 == db.nextId)
              = [] := by
            rw [List.filter_eq_nil_iff]
            intro pr hpr
            have := hwf.linkPostLt pr hpr
            simp only [beq_iff_eq]
            omega
          show ((db.post_tags.filter (fun pr => pr.1 == db.nextId)).map
            _).Nodup
          rw [hnil]
          exact List.nodup_nil
      · rw [if_neg htg] at hok ⊢
        have hinv0 : LoopInv db.nextId
            { db with
              posts := db.posts ++ [mkNewPost db inp v imageUrl]
              nextId := db.nextId + 1 } := by
          refine ⟨hwf.slugsNodup, hwf.idsNodup, ?_, hwf.linksNodup, ?_⟩
          · intro t ht
            exact Nat.lt_succ_of_lt (hwf.idLt t ht)
          · intro pr hpr hpr1
            have := hwf.linkPostLt pr hpr
            omega
        constructor
        · show (calls0 ++ Call.postsInsert (generateSlug v.title)
              :: (processTags plan db.nextId 0 _ (parseTags v.tags)).2.1
              ).filterMap selectedSlug
            = (parseTags v.tags).map generateSlug
          rw [List.filterMap_append, hcalls0, List.filterMap_cons]
          show List.filterMap selectedSlug
              (processTags plan db.nextId 0 _ (parseTags v.tags)).2.1
            = (parseTags v.tags).map generateSlug
          exact processTags_selects plan db.nextId (parseTags v.tags) 0 _ hok
        · show (linkSlugsOf
              (processTags plan db.nextId 0 _ (parseTags v.tags)).1
              db.nextId).Nodup
          exact linkSlugs_nodup_of_inv
            (processTags_loopInv plan db.nextId (parseTags v.tags) 0 _ hinv0)

/-- C3: on a completed submission the tag names processed are exactly the
comma-separated entries of the tags field after trimming, empty entries
discarded — the loop's `tags` selects request precisely their slugs, in
order — and the links stored for the new post carry pairwise distinct tag
slugs: at most one link per unique slug, even when the same name (or two
names with the same slug) appears more than once in the list. -/
theorem C3_tag_parse_and_link_dedup (db : DB) (inp : SubmitInput)
    (plan : FailurePlan) (v : ValidatedPost)
    (hv : validatePost inp.title inp.content inp.excerpt inp.tags = .ok v)
    (hwf : WFdb db)
    (hok : (handleSubmit db inp plan).2.2 = .ok ()) :
    ((handleSubmit db inp plan).2.1.filterMap selectedSlug
      = (parseTags v.tags).map generateSlug) ∧
    (linkSlugsOf (handleSubmit db inp plan).1 db.nextId).Nodup := by
  cases himg : inp.image with
  | none =>
    have h1 : handleSubmit db inp plan
        = submitAfterUpload db inp plan v [] none := by
      unfold handleSubmit
      rw [hv, himg]
    rw [h1] at hok ⊢
    exact submitAfterUpload_ok_props db inp plan v [] none hwf rfl hok
  | some img =>
    by_cases hup : plan.uploadFails = true
    · have h1 : handleSubmit db inp plan
          = (db, [Call.storageUpload (uploadPathFor inp img)],
            .error SubmitError.upload) := by
        unfold handleSubmit
        rw [hv, himg]
        dsimp only
        rw [if_pos hup]
      rw [h1] at hok
      simp at hok
    · have h1 : handleSubmit db inp plan
          = submitAfterUpload
            { db with storageObjects
                := db.storageObjects ++ [uploadPathFor inp img] }
            inp plan v [Call.storageUpload (uploadPathFor inp img)]
            (some (publicUrlFor (uploadPathFor inp img))) := by
        unfold handleSubmit
        rw [hv, himg]
        dsimp only
        rw [if_neg hup]
      rw [h1] at hok ⊢
      have hwf2 : WFdb { db with storageObjects
          := db.storageObjects ++ [uploadPathFor inp img] } :=
        ⟨hwf.slugsNodup, hwf.idsNodup, hwf.idLt, hwf.linksNodup,
          hwf.linkPostLt⟩
      exact submitAfterUpload_ok_props _ inp plan v _ _ hwf2 rfl hok

/-- Witness for C3 at `sampleInput`, whose tag list `politics, Politics`
parses to two names with the same slug: the completed run selected that slug
twice and stored links with pairwise distinct slugs. -/
theorem C3_tag_parse_and_link_dedup_witness :
    ((handleSubmit emptyDb sampleInput noFailPlan).2.1.filterMap selectedSlug
      = (parseTags sampleValidated.tags).map generateSlug) ∧
    (linkSlugsOf (handleSubmit emptyDb sampleInput noFailPlan).1
      emptyDb.nextId).Nodup :=
  C3_tag_parse_and_link_dedup emptyDb sampleInput noFailPlan sampleValidated
    (by decide) ⟨by decide, by decide, by decide, by decide, by decide⟩
    (by decide)

end DailyBelfastNews
